import Mathlib

/-!
Parallel chunked scan-and-aggregate engine: embedding and properties.

A shallow embedding of the query engine (`reader.cpp`, `TripRecord.hpp`,
`query1.cpp` .. `query4.cpp`).

* A byte is a `Char`; the memory-mapped file is a `List Char`.
* `size_t` offsets are `Nat`: every offset the code computes is at most the
  file size, so no 64-bit wrap-around can occur in the offset arithmetic.
  Counters that are incremented (`count`, `passenger_sum`) carry their
  machine width explicitly.
* A read past the end of the mapped file, or a cursor that leaves the
  `std::string` it walks, is undefined behaviour: the functions that can get
  there return `Option` or `Except` and stop with `none` / `.error`.  The
  16-byte loads of `isJanuary2024SIMD` run past an 11-byte array and an 8-byte
  literal into bytes that exist but whose values are unknown: those bytes are
  a parameter (`SimdTail`).
* `double` is an abstract carrier with the operations the code applies to it
  (class `DoubleOps`).
-/

namespace QueryEngine

/-- The line terminator byte. -/
def NL : Char := Char.ofNat 10

/-- The field delimiter byte. -/
def COMMA : Char := Char.ofNat 44

/-- The NUL byte that terminates a C string. -/
def NUL : Char := Char.ofNat 0

/-! ## Chunk alignment (query1.cpp 75-92, query2.cpp 40-54, query3.cpp 65-79,
query4.cpp 73-87) -/

/-- The loop `while (pos < limit && data[pos] != '\n') pos++;` where the first
argument is the number `limit - pos` of iterations the bound still allows. -/
def skipToNewline (data : List Char) : Nat → Nat → Nat
  | 0, pos => pos
  | fuel + 1, pos =>
    if data.getD pos NUL ≠ NL then skipToNewline data fuel (pos + 1) else pos

/-- `size_t chunkSize = fileSize / numThreads;` -/
def chunkSize (data : List Char) (numThreads : Nat) : Nat :=
  data.length / numThreads

/-- The nominal bounds of a worker before alignment:
`start = threadId * chunkSize`,
`end = (threadId == numThreads - 1) ? fileSize : (threadId + 1) * chunkSize`. -/
def nominalStart (data : List Char) (numThreads threadId : Nat) : Nat :=
  threadId * chunkSize data numThreads

/-- See `nominalStart`. -/
def nominalEnd (data : List Char) (numThreads threadId : Nat) : Nat :=
  if threadId = numThreads - 1 then data.length
  else (threadId + 1) * chunkSize data numThreads

/-- The adjusted start: `if (threadId > 0) while (start < end && data[start] != '\n') start++;`
(the bound `end` is the nominal end: the start loop runs before the end loop). -/
def alignedStart (data : List Char) (numThreads threadId : Nat) : Nat :=
  if 0 < threadId then
    skipToNewline data
      (nominalEnd data numThreads threadId - nominalStart data numThreads threadId)
      (nominalStart data numThreads threadId)
  else nominalStart data numThreads threadId

/-- The adjusted end:
`if (threadId < numThreads - 1) while (end < fileSize && data[end] != '\n') end++;` -/
def alignedEnd (data : List Char) (numThreads threadId : Nat) : Nat :=
  if threadId < numThreads - 1 then
    skipToNewline data
      (data.length - nominalEnd data numThreads threadId)
      (nominalEnd data numThreads threadId)
  else nominalEnd data numThreads threadId

/-- The bytes `[start, end)` a worker scans. -/
def chunkBytes (data : List Char) (numThreads threadId : Nat) : List Char :=
  (data.drop (alignedStart data numThreads threadId)).take
    (alignedEnd data numThreads threadId - alignedStart data numThreads threadId)

/-! ## The keyed scan loop (query2.cpp 63-92, query3.cpp 86-111, query4.cpp 98-127) -/

/-- The loop
`while (curr < chunk_end) { lineEnd = find(curr, chunk_end, '\n');
   if (lineEnd == chunk_end) break; line = [curr, lineEnd); ...; curr = lineEnd + 1; }`
as the list of the `line` values it produces.  The first argument collects, in
reverse, the bytes between `curr` and the byte `std::find` is looking at; when
the chunk ends before a terminator is found the loop breaks and the collected
bytes are dropped. -/
def scanLinesFrom : List Char → List Char → List (List Char)
  | _, [] => []
  | cur, c :: rest =>
    if c = NL then cur.reverse :: scanLinesFrom [] rest
    else scanLinesFrom (c :: cur) rest

/-- The lines a worker finds in its chunk. -/
def scanLines (chunk : List Char) : List (List Char) :=
  scanLinesFrom [] chunk

/-- The lines each worker hands to `Reader::parseLine`, worker by worker. -/
def linesHandedToParser (data : List Char) (numThreads : Nat) : List (List (List Char)) :=
  (List.range numThreads).map (fun threadId => scanLines (chunkBytes data numThreads threadId))

/-- The lines of a buffer as the specification counts them: the segments between
terminators, a trailing segment without terminator included when non-empty. -/
def specLines : List Char → List Char → List (List Char)
  | cur, [] => if cur = [] then [] else [cur.reverse]
  | cur, c :: rest =>
    if c = NL then cur.reverse :: specLines [] rest
    else specLines (c :: cur) rest

/-! ## `double` (abstract) -/

/-- The operations the engine applies to a `double`.  `from_chars` is
`std::from_chars` for `double`: `some v` when a number was converted, `none`
when the call reports an error and leaves its output argument untouched. -/
class DoubleOps (D : Type) where
  /-- The literal `0.0`. -/
  zero : D
  /-- The literal `5.0` (`DISTANCE_THRESHOLD`). -/
  threshold : D
  /-- The operator `+`. -/
  add : D → D → D
  /-- The ordered comparison `>` (`_CMP_GT_OQ`): false when an operand is a NaN. -/
  gt : D → D → Bool
  /-- The conversion `std::from_chars(first, last, double&)`. -/
  from_chars : List Char → Option D

/-- Is the byte a decimal digit. -/
def isDigit (c : Char) : Bool := decide (48 ≤ c.toNat ∧ c.toNat ≤ 57)

/-- The value of a run of decimal digits, most significant first, on top of `acc`. -/
def digitsValue : Nat → List Char → Nat
  | acc, [] => acc
  | acc, c :: cs => digitsValue (acc * 10 + (c.toNat - 48)) cs

/-- A stand-in for `double` on which the definitions can be run: decimals with
three fractional digits, held as an integer number of thousandths. -/
structure Fixed where
  milli : Int
  deriving DecidableEq, Repr

/-- Reads `-?digits(.digits)?` from the front of the text, to thousandths. -/
def Fixed.read (sv : List Char) : Option Fixed :=
  let neg := decide (sv.head? = some '-')
  let body := if neg then sv.drop 1 else sv
  let ip := body.takeWhile isDigit
  let fp := match body.dropWhile isDigit with
    | c :: t => if c = '.' then t.takeWhile isDigit else []
    | [] => []
  if ip = [] ∧ fp = [] then none
  else
    let v : Int := (digitsValue 0 ip * 1000 + digitsValue 0 ((fp ++ ['0', '0', '0']).take 3) : Nat)
    some ⟨if neg then -v else v⟩

instance : DoubleOps Fixed where
  zero := ⟨0⟩
  threshold := ⟨5000⟩
  add a b := ⟨a.milli + b.milli⟩
  gt a b := decide (b.milli < a.milli)
  from_chars := Fixed.read

/-! ## Reader (reader.cpp 125-209, TripRecord.hpp 9-30) -/

/-- The record `TripRecord`, with the member initialisers as defaults.  `date`
is the array `char date[11]`. -/
structure TripRecord (D : Type) where
  VendorID : Int
  Payment_type : Int
  Store_and_fwd_flag : Char
  date : List Char
  Trip_distance : D
  fare : D
  tip : D
  passenger_count : Int
  deriving DecidableEq, Repr

/-- `std::from_chars(first, last, int32_t&)` in base 10: an optional `-`, then the
longest run of digits; `none` (output argument untouched) when there is no
digit or the value is not representable in `int32_t`. -/
def from_chars_int32 (sv : List Char) : Option Int :=
  let neg := decide (sv.head? = some '-')
  let body := if neg then sv.drop 1 else sv
  let ds := body.takeWhile isDigit
  if ds = [] then none
  else
    let v : Int := if neg then -(digitsValue 0 ds : Nat) else (digitsValue 0 ds : Nat)
    if -2147483648 ≤ v ∧ v ≤ 2147483647 then some v else none

/-- `Reader::parseInt(sv)` with its default argument `defaultValue = 0`. -/
def parseInt (sv : List Char) : Int :=
  (from_chars_int32 sv).getD 0

/-- `Reader::parseDouble(sv)` with its default argument `defaultValue = 0.0`. -/
def parseDouble (D : Type) [DoubleOps D] (sv : List Char) : D :=
  (DoubleOps.from_chars sv).getD DoubleOps.zero

/-- `Reader::extractField(curr, end)`: the bytes from the cursor up to the first
`,`, or up to `end` when there is none.  A cursor `curr <= end` is held as the
list of the bytes in `[curr, end)`. -/
def extractField (curr : List Char) : List Char :=
  curr.takeWhile (fun c => c ≠ COMMA)

/-- The cursor `std::find(curr, end, ',') + 1`.  With no `,` left this is
`end + 1`, one byte past the terminating NUL of the string: `none`. -/
def nextField (curr : List Char) : Option (List Char) :=
  match curr.dropWhile (fun c => c ≠ COMMA) with
  | [] => none
  | _ :: tail => some tail

/-- The step `curr = std::find(curr, end, ',') + 1` (for the first field,
`curr += vendorField.length() + 1`) while `record` is being filled.  Every
such step in `parseLine` is followed by a `std::find` or a `strncpy` from the
new cursor; from `end + 1` that reads outside the string, which is undefined
behaviour: the walk stops with `.error record`, the record as assigned so far. -/
def advance {D : Type} (record : TripRecord D) (curr : List Char) :
    Except (TripRecord D) (List Char) :=
  match nextField curr with
  | some next => .ok next
  | none => .error record

/-- The loop `for (int i = 0; i < n; i++) curr = std::find(curr, end, ',') + 1;`. -/
def skipFields {D : Type} (record : TripRecord D) : Nat → List Char →
    Except (TripRecord D) (List Char)
  | 0, curr => .ok curr
  | n + 1, curr =>
    match advance record curr with
    | .ok next => skipFields record n next
    | .error r => .error r

/-- The cursor after `n` steps `curr = std::find(curr, end, ',') + 1` from a
cursor inside the string; `none` when a step leaves it. -/
def nthCursor : Nat → List Char → Option (List Char)
  | 0, l => some l
  | n + 1, l => (nextField l).bind (nthCursor n)

/-- `std::strncpy(dst, curr, n)`: copies bytes up to the first NUL (an embedded
one or the terminator at `end`) and fills the rest of the `n` bytes with NUL. -/
def strncpy : Nat → List Char → List Char
  | 0, _ => []
  | n + 1, [] => NUL :: strncpy n []
  | n + 1, c :: cs => if c = NUL then NUL :: strncpy n [] else c :: strncpy n cs

/-- The record `TripRecord record;` as its member initialisers leave it. -/
def TripRecord.init (D : Type) [DoubleOps D] : TripRecord D where
  VendorID := 0
  Payment_type := 0
  Store_and_fwd_flag := 'N'
  date := List.replicate 11 NUL
  Trip_distance := DoubleOps.zero
  fare := DoubleOps.zero
  tip := DoubleOps.zero
  passenger_count := 0

/-- `Reader::parseLine(line)`.  `.ok record` is the returned record; `.error record`
is undefined behaviour (the cursor left the string) with the record as it had
been assigned up to there.  Nothing in the body throws, so the `catch` block is
never entered. -/
def parseLine (D : Type) [DoubleOps D] (line : List Char) :
    Except (TripRecord D) (TripRecord D) := do
  let record := TripRecord.init D
  let curr := line
  -- Extract VendorID
  let vendorField := extractField curr
  let record := { record with VendorID := parseInt vendorField }
  let curr ← advance record curr
  -- Skip unused fields with fast pointer arithmetic
  let curr ← skipFields record 5 curr
  -- Extract passenger_count
  let passengerField := extractField curr
  let record := { record with passenger_count := parseInt passengerField }
  let curr ← advance record curr
  -- Extract trip_distance
  let distanceField := extractField curr
  let record := { record with Trip_distance := parseDouble D distanceField }
  -- Skip more unused fields
  let curr ← skipFields record 3 curr
  -- Extract date: strncpy(record.date, curr, 10); date[10] keeps its initial 0
  let record := { record with date := strncpy 10 curr ++ [NUL] }
  let curr ← advance record curr
  -- Skip more fields to get to payment_type
  let curr ← skipFields record 5 curr
  -- Extract payment_type
  let paymentField := extractField curr
  let record := { record with Payment_type := parseInt paymentField }
  let curr ← advance record curr
  -- Extract fare_amount
  let fareField := extractField curr
  let record := { record with fare := parseDouble D fareField }
  let curr ← advance record curr
  -- Skip to tip
  let curr ← advance record curr
  -- Extract tip
  let tipField := extractField curr
  let record := { record with tip := parseDouble D tipField }
  -- Extract store_and_fwd_flag if present
  let flagField := extractField curr
  let record := match flagField with
    | [] => record
    | c :: _ => { record with Store_and_fwd_flag := c }
  return record

/-- The record `parseLine` returns, when the call is defined. -/
def returned {D : Type} : Except (TripRecord D) (TripRecord D) → Option (TripRecord D)
  | .ok r => some r
  | .error _ => none

/-- The comma-separated columns of a line, as the specification counts them
(column 0 first). -/
def columns : List Char → List (List Char)
  | [] => [[]]
  | c :: cs =>
    if c = COMMA then [] :: columns cs
    else match columns cs with
      | [] => [[c]]
      | col :: cols => (c :: col) :: cols

/-- Column `k` of a line (empty when the line has no such column). -/
def column (line : List Char) (k : Nat) : List Char :=
  (columns line).getD k []

/-- The text of the line from the first byte of column `k` to the end of the line. -/
def fromColumn (line : List Char) (k : Nat) : List Char :=
  List.intercalate [COMMA] ((columns line).drop k)

/-! ## SIMD primitives -/

/-- `_mm_cmpeq_epi8` / `_mm256_cmpeq_epi8`, lane by lane. -/
def cmpeq_epi8 (a b : List Char) : List Bool :=
  List.zipWith (fun x y => decide (x = y)) a b

/-- `_mm_movemask_epi8`, `_mm256_movemask_epi8`, `_mm256_movemask_pd`: bit `i` of
the mask is lane `i`. -/
def movemask : List Bool → Nat
  | [] => 0
  | b :: bs => (if b then 1 else 0) + 2 * movemask bs

/-- `_mm_popcnt_u32`. -/
def popcnt_u32 (mask : Nat) : Nat :=
  ((List.range 32).filter (fun i => mask.testBit i)).length

/-- `_mm256_set1_epi64x`, `_mm256_set1_epi32`, `_mm256_set1_pd`: `lanes` copies. -/
def set1 {α : Type} (lanes : Nat) (x : α) : List α :=
  List.replicate lanes x

/-- `_mm256_extract_epi64(v, 0)`, `_mm256_extract_epi32(v, 0)`, `_mm256_cvtsd_f64(v)`:
lane 0 (`dflt` for a vector without lanes, which `set1` never builds). -/
def lane0 {α : Type} (v : List α) (dflt : α) : α :=
  v.headD dflt

/-- An unaligned load of `width` bytes at offset `p` of the mapped file; `none`
when a byte of it lies past the end of the mapping. -/
def loadu (mem : List Char) (width p : Nat) : Option (List Char) :=
  if p + width ≤ mem.length then some ((mem.drop p).take width) else none

/-- The bytes found in memory right after the two objects `isJanuary2024SIMD`
loads 16 bytes from. -/
structure SimdTail where
  /-- After the 8 bytes of the literal `"2024-01"`. -/
  afterTarget : List Char
  /-- After the 11 bytes of `record.date`. -/
  afterDate : List Char

/-- `_mm_loadu_si128` at an object holding `obj`, followed in memory by `tail`. -/
def loadu_si128 (obj tail : List Char) : List Char :=
  (obj ++ tail).take 16

/-- The literal `"2024-01"` with its terminator (`TARGET_DATE_PREFIX`). -/
def TARGET_DATE_PREFIX : List Char := "2024-01".toList ++ [NUL]

/-- `isJanuary2024SIMD(date)` (query3.cpp 22-27, query4.cpp 35-40). -/
def isJanuary2024SIMD (mem : SimdTail) (date : List Char) : Bool :=
  let target := loadu_si128 TARGET_DATE_PREFIX mem.afterTarget
  let input := loadu_si128 date mem.afterDate
  (movemask (cmpeq_epi8 target input) &&& 0x7F) == 0x7F

/-- `size_t` arithmetic. -/
def wrapSizeT (n : Nat) : Nat := n % 2 ^ 64

/-- `int32_t` arithmetic, two's complement (what `_mm256_add_epi32` and the
scalar `+=` of the target machine compute). -/
def wrapInt32 (x : Int) : Int := (x + 2 ^ 31) % 2 ^ 32 - 2 ^ 31

/-- The conversion of an `int32_t` to `size_t` in a mixed comparison or index. -/
def toSizeT (x : Int) : Nat := (x % 2 ^ 64).toNat

/-- `auto& s = v[i]; s = f(s);` on a vector (`i` in range). -/
def modifyAt {α : Type} (f : α → α) : Nat → List α → List α
  | _, [] => []
  | 0, a :: as => f a :: as
  | i + 1, a :: as => a :: modifyAt f i as

/-- The scan loop of query2/3/4 with its body: every line found is parsed and
folded into the worker's accumulator.  `none`: a `parseLine` call ran into
undefined behaviour. -/
def foldChunk (D : Type) [DoubleOps D] {Acc : Type} (step : Acc → TripRecord D → Acc)
    (init : Acc) (chunk : List Char) : Option Acc :=
  (scanLines chunk).foldlM
    (fun acc line =>
      match parseLine D line with
      | .ok record => some (step acc record)
      | .error _ => none)
    init

/-! ## query1 (query1.cpp) -/

/-- `constexpr size_t SIMD_WIDTH = 32;` -/
def SIMD_WIDTH : Nat := 32

/-- The loop `for (; data < end; data += SIMD_WIDTH)` of `countNewlinesSIMD`,
with the number of iterations left, the pointer `data` (an offset into the
mapping) and `count`; returns the final `data` and `count`. -/
def simdBlocks (mem : List Char) : Nat → Nat → Nat → Option (Nat × Nat)
  | 0, data, count => some (data, count)
  | n + 1, data, count =>
    match loadu mem SIMD_WIDTH data with
    | none => none
    | some chunk =>
      let cmp := cmpeq_epi8 chunk (List.replicate SIMD_WIDTH NL)
      let mask := movemask cmp
      simdBlocks mem n (data + SIMD_WIDTH) (count + popcnt_u32 mask)

/-- The loop `for (size_t i = vectorized_size; i < size; ++i) if (data[i] == '\n') count++;`
with the number of iterations left, `i` and `count`.  `data` is the pointer as
the first loop left it. -/
def tailLoop (mem : List Char) (data : Nat) : Nat → Nat → Nat → Option Nat
  | 0, _, count => some count
  | n + 1, i, count =>
    match mem[data + i]? with
    | none => none
    | some c => tailLoop mem data n (i + 1) (if c = NL then count + 1 else count)

/-- `countNewlinesSIMD(data, size)`, `data` an offset into the mapping `mem`. -/
def countNewlinesSIMD (mem : List Char) (data size : Nat) : Option Nat :=
  let vectorized_size := size - size % SIMD_WIDTH
  match simdBlocks mem (vectorized_size / SIMD_WIDTH) data 0 with
  | none => none
  | some (data, count) => tailLoop mem data (size - vectorized_size) vectorized_size count

/-- `query1`: the value printed after `Total lines:`. -/
def query1 (data : List Char) (numThreads : Nat) : Option Nat :=
  match (List.range numThreads).mapM (fun threadId =>
      countNewlinesSIMD data (alignedStart data numThreads threadId)
        (alignedEnd data numThreads threadId - alignedStart data numThreads threadId)) with
  | none => none
  | some counts =>
    let totalLines := counts.foldl (fun total count => total + count) 0
    -- Add 1 if file doesn't end with newline
    if 0 < data.length ∧ data.getD (data.length - 1) NUL ≠ NL then some (totalLines + 1)
    else some totalLines

/-- The number of records of a buffer as the specification counts them: the
terminators, plus one for a trailing line without terminator. -/
def recordCount (data : List Char) : Nat :=
  data.count NL + (if 0 < data.length ∧ data.getLast? ≠ some NL then 1 else 0)

/-! ## query2 (query2.cpp) -/

/-- `struct PaymentStats`. -/
structure PaymentStats (D : Type) where
  count : Nat
  fare_sum : D
  tip_sum : D
  deriving DecidableEq, Repr

/-- A value-initialised `PaymentStats`. -/
def PaymentStats.zero (D : Type) [DoubleOps D] : PaymentStats D :=
  ⟨0, DoubleOps.zero, DoubleOps.zero⟩

/-- The local `const int MAX_PAYMENT_TYPES = 7;`. -/
def MAX_PAYMENT_TYPES : Int := 7

/-- The test of the fold step (query2.cpp 72-77): the four-lane comparison
`Trip_distance > 5.0`, then `Payment_type > 0 && Payment_type < MAX_PAYMENT_TYPES`. -/
def query2Filter {D : Type} [DoubleOps D] (record : TripRecord D) : Bool :=
  let cmp := List.zipWith DoubleOps.gt (set1 4 record.Trip_distance)
    (set1 4 (DoubleOps.threshold : D))
  decide (movemask cmp ≠ 0) && decide (record.Payment_type > 0) &&
    decide (record.Payment_type < MAX_PAYMENT_TYPES)

/-- The fold step of query2 (query2.cpp 72-84). -/
def query2Step {D : Type} [DoubleOps D] (localStats : List (PaymentStats D))
    (record : TripRecord D) : List (PaymentStats D) :=
  if query2Filter record then
    modifyAt (fun stats =>
      { count := wrapSizeT (stats.count + 1)
        fare_sum := DoubleOps.add stats.fare_sum record.fare
        tip_sum := DoubleOps.add stats.tip_sum record.tip })
      (toSizeT record.Payment_type) localStats
  else localStats

/-- The merge of one worker's array into `finalStats` (query2.cpp 99-108). -/
def query2MergeOne {D : Type} [DoubleOps D] (finalStats threadStat : List (PaymentStats D)) :
    List (PaymentStats D) :=
  (List.range' 1 6).foldl
    (fun final i =>
      let ts := threadStat.getD i (PaymentStats.zero D)
      modifyAt (fun fs =>
        { count := wrapSizeT (fs.count + lane0 (set1 4 ts.count) 0)
          fare_sum := DoubleOps.add fs.fare_sum (lane0 (set1 4 ts.fare_sum) DoubleOps.zero)
          tip_sum := DoubleOps.add fs.tip_sum (lane0 (set1 4 ts.tip_sum) DoubleOps.zero) })
        i final)
    finalStats

/-- The merge loop of query2 over all workers, from a zeroed `finalStats`. -/
def query2Merge {D : Type} [DoubleOps D] (threadStats : List (List (PaymentStats D))) :
    List (PaymentStats D) :=
  threadStats.foldl query2MergeOne (List.replicate 7 (PaymentStats.zero D))

/-- The keys and rows query2 prints (query2.cpp 111-121). -/
def query2Report {D : Type} [DoubleOps D] (finalStats : List (PaymentStats D)) :
    List (Nat × PaymentStats D) :=
  (List.range' 1 6).filterMap (fun i =>
    let stats := finalStats.getD i (PaymentStats.zero D)
    if stats.count > 0 then some (i, stats) else none)

/-- `query2` up to the merged array. -/
def query2 (D : Type) [DoubleOps D] (data : List Char) (numThreads : Nat) :
    Option (List (PaymentStats D)) :=
  ((List.range numThreads).mapM (fun threadId =>
      foldChunk D query2Step (List.replicate 7 (PaymentStats.zero D))
        (chunkBytes data numThreads threadId))).map query2Merge

/-! ## query3 (query3.cpp) -/

/-- `struct VendorStats { alignas(32) size_t count; alignas(32) int32_t passenger_sum; }`:
`count` sits at byte 0 and `passenger_sum` at byte 32 of a 64-byte object. -/
structure VendorStats where
  count : Nat
  passenger_sum : Int
  deriving DecidableEq, Repr

/-- A value-initialised `VendorStats`. -/
def VendorStats.zero : VendorStats := ⟨0, 0⟩

/-- `constexpr size_t MAX_VENDOR_ID = 256;` -/
def MAX_VENDOR_ID : Nat := 256

/-- `constexpr char TARGET_FLAG = 'Y';` -/
def TARGET_FLAG : Char := 'Y'

/-- The test of the fold step (query3.cpp 95-97) and the index it lets through.
`record.VendorID < MAX_VENDOR_ID` compares an `int32_t` with a `size_t`: the
left side is converted to `size_t` first. -/
def query3Key {D : Type} (mem : SimdTail) (record : TripRecord D) : Option Nat :=
  if record.Store_and_fwd_flag = TARGET_FLAG ∧ isJanuary2024SIMD mem record.date = true ∧
      toSizeT record.VendorID < MAX_VENDOR_ID then
    some (toSizeT record.VendorID)
  else none

/-- The fold step of query3 (query3.cpp 94-102). -/
def query3Step {D : Type} (mem : SimdTail) (localStats : List VendorStats)
    (record : TripRecord D) : List VendorStats :=
  match query3Key mem record with
  | some index =>
    modifyAt (fun stats =>
      { count := wrapSizeT (stats.count + 1)
        passenger_sum := wrapInt32 (stats.passenger_sum + record.passenger_count) })
      index localStats
  | none => localStats

/-- The merge of one worker's array into `finalStats` (query3.cpp 120-133).  The
loop runs `i = 0, 4, 8, ..`; the 32-byte load at `&threadStat[i].count` covers
`threadStat[i].count` and 24 padding bytes of the same 64-byte element, the one
at `&threadStat[i].passenger_sum` covers `threadStat[i].passenger_sum` and 28
padding bytes: lane 0 of each sum is stored back into `finalStats[i]`, and the
elements `i + 1`, `i + 2`, `i + 3` are not touched. -/
def query3MergeOne (finalStats threadStat : List VendorStats) : List VendorStats :=
  ((List.range (MAX_VENDOR_ID / 4)).map (fun j => 4 * j)).foldl
    (fun final i =>
      let ts := threadStat.getD i VendorStats.zero
      modifyAt (fun fs =>
        { count := wrapSizeT (fs.count + ts.count)
          passenger_sum := wrapInt32 (fs.passenger_sum + ts.passenger_sum) })
        i final)
    finalStats

/-- The merge loop of query3 over all workers, from a zeroed `finalStats`. -/
def query3Merge (threadStats : List (List VendorStats)) : List VendorStats :=
  threadStats.foldl query3MergeOne (List.replicate MAX_VENDOR_ID VendorStats.zero)

/-- The keys and rows query3 prints (query3.cpp 136-143). -/
def query3Report (finalStats : List VendorStats) : List (Nat × VendorStats) :=
  (List.range MAX_VENDOR_ID).filterMap (fun i =>
    let stats := finalStats.getD i VendorStats.zero
    if stats.count > 0 then some (i, stats) else none)

/-- `query3` up to the merged array. -/
def query3 (D : Type) [DoubleOps D] (mem : SimdTail) (data : List Char) (numThreads : Nat) :
    Option (List VendorStats) :=
  ((List.range numThreads).mapM (fun threadId =>
      foldChunk D (query3Step mem) (List.replicate MAX_VENDOR_ID VendorStats.zero)
        (chunkBytes data numThreads threadId))).map query3Merge

/-! ## query4 (query4.cpp) -/

/-- `struct DailyStats`. -/
structure DailyStats (D : Type) where
  count : Nat
  passenger_sum : Int
  distance_sum : D
  fare_sum : D
  tip_sum : D
  deriving DecidableEq, Repr

/-- A value-initialised `DailyStats`. -/
def DailyStats.zero (D : Type) [DoubleOps D] : DailyStats D :=
  ⟨0, 0, DoubleOps.zero, DoubleOps.zero, DoubleOps.zero⟩

/-- `DailyStats::mergeWith(other)` (query4.cpp 19-32): every field is broadcast
into a vector, lane 0 is taken back out and added. -/
def DailyStats.mergeWith {D : Type} [DoubleOps D] (self other : DailyStats D) : DailyStats D where
  count := wrapSizeT (self.count + lane0 (set1 4 other.count) 0)
  passenger_sum := wrapInt32 (self.passenger_sum + lane0 (set1 8 other.passenger_sum) 0)
  distance_sum := DoubleOps.add self.distance_sum (lane0 (set1 4 other.distance_sum) DoubleOps.zero)
  fare_sum := DoubleOps.add self.fare_sum (lane0 (set1 4 other.fare_sum) DoubleOps.zero)
  tip_sum := DoubleOps.add self.tip_sum (lane0 (set1 4 other.tip_sum) DoubleOps.zero)

/-- The order of `std::string` keys: lexicographic on the bytes, a proper prefix first. -/
def strLt : List Char → List Char → Bool
  | [], [] => false
  | [], _ :: _ => true
  | _ :: _, [] => false
  | a :: as, b :: bs => decide (a < b) || (decide (a = b) && strLt as bs)

/-- A `std::map<std::string, DailyStats>`: its entries in iteration order
(ascending keys). -/
abbrev DateMap (D : Type) := List (List Char × DailyStats D)

/-- `m.find(key)`: the entry stored at `key`, if any. -/
def DateMap.find {D : Type} (m : DateMap D) (key : List Char) : Option (DailyStats D) :=
  match m with
  | [] => none
  | (k, v) :: rest => if k = key then some v else DateMap.find rest key

/-- `auto& stats = m[key]; stats = f(stats);`: `operator[]` inserts a
value-initialised entry at its place in the order when the key is missing. -/
def DateMap.modify {D : Type} [DoubleOps D] (key : List Char) (f : DailyStats D → DailyStats D)
    (m : DateMap D) : DateMap D :=
  match m with
  | [] => [(key, f (DailyStats.zero D))]
  | (k, v) :: rest =>
    if k = key then (k, f v) :: rest
    else if strLt key k then (key, f (DailyStats.zero D)) :: (k, v) :: rest
    else (k, v) :: DateMap.modify key f rest

/-- The invariant of a `std::map`: the keys are strictly ascending. -/
def DateMap.Sorted {D : Type} (m : DateMap D) : Prop :=
  m.Pairwise (fun a b => strLt a.1 b.1 = true)

/-- The number of records of a list that query4 files under the key `d`: those
whose date starts with `"2024-01"` and whose 10 date bytes are `d`. -/
def januaryCount {D : Type} (d : List Char) (records : List (TripRecord D)) : Nat :=
  records.countP (fun r => decide (r.date.take 7 = "2024-01".toList) &&
    decide (r.date.take 10 = d))

/-- The fold step of query4 (query4.cpp 106-118); the key is
`dateKey.assign(record.date, 10)`. -/
def query4Step {D : Type} [DoubleOps D] (mem : SimdTail) (localStats : DateMap D)
    (record : TripRecord D) : DateMap D :=
  if isJanuary2024SIMD mem record.date then
    DateMap.modify (record.date.take 10) (fun stats =>
      { count := wrapSizeT (stats.count + 1)
        passenger_sum := wrapInt32 (stats.passenger_sum + record.passenger_count)
        distance_sum := DoubleOps.add stats.distance_sum record.Trip_distance
        fare_sum := DoubleOps.add stats.fare_sum record.fare
        tip_sum := DoubleOps.add stats.tip_sum record.tip })
      localStats
  else localStats

/-- The merge loop of query4 (query4.cpp 130-136):
`for (threadStat : threadStats) for ([date, stats] : threadStat) finalStats[date].mergeWith(stats);` -/
def query4Merge {D : Type} [DoubleOps D] (threadStats : List (DateMap D)) : DateMap D :=
  threadStats.foldl
    (fun final threadStat =>
      threadStat.foldl
        (fun final entry => DateMap.modify entry.1 (fun fs => fs.mergeWith entry.2) final)
        final)
    []

/-- `query4` up to the merged map, whose entries are printed in order. -/
def query4 (D : Type) [DoubleOps D] (mem : SimdTail) (data : List Char) (numThreads : Nat) :
    Option (DateMap D) :=
  ((List.range numThreads).mapM (fun threadId =>
      foldChunk D (query4Step mem) [] (chunkBytes data numThreads threadId))).map query4Merge

/-! ## Concrete inputs -/

/-- A line of 21 columns, all different where it matters. -/
def trip21 : List Char :=
  "1,a,b,c,d,e,2,7.5,x,y,2024-01-15,2024-02-20,l,m,n,o,3,4,5,6,8".toList

/-- A line of 8 columns: vendor 7, three passengers, 6.5 miles, and nothing after
the trip distance. -/
def tripEightColumns : List Char :=
  "7,a,b,c,d,e,3,6.5".toList

/-- A line of 21 columns with tip `2.5` in column 19 and `Y` in the last column. -/
def tripFlagY : List Char :=
  "1,a,b,c,d,e,2,7.5,x,y,2024-01-15,k,l,m,n,o,1,9.5,p,2.5,Y".toList

/-- The same line with column 19 empty. -/
def tripFlagNoTip : List Char :=
  "1,a,b,c,d,e,2,7.5,x,y,2024-01-15,k,l,m,n,o,1,9.5,p,,Y".toList

/-- A file of two trips of January 15th, 2024. -/
def twoTrips : List Char :=
  "1,,,,,,1,,,,2024-01-15,,,,,,2,,,Y\n2,,,,,,3,,,,2024-01-15,,,,,,2,,,Y\n".toList

/-- A file of 72 bytes: terminators at offsets 35 and 40, none at the end. -/
def buf72 : List Char :=
  List.replicate 35 'a' ++ [NL] ++ List.replicate 4 'a' ++ [NL] ++ List.replicate 31 'a'

/-- A worker's vendor array with one trip of two passengers at vendors 1 and 4. -/
def vendorOneAndFour : List VendorStats :=
  modifyAt (fun _ => ⟨1, 2⟩) 4
    (modifyAt (fun _ => ⟨1, 2⟩) 1 (List.replicate MAX_VENDOR_ID VendorStats.zero))

/-- A trip of 6.0 miles paid with payment type 2: fare 10.0, tip 2.0; vendor 2,
one passenger, stored and forwarded, on January 15th, 2024. -/
def tripSixMiles : TripRecord Fixed where
  VendorID := 2
  Payment_type := 2
  Store_and_fwd_flag := 'Y'
  date := "2024-01-15".toList ++ [NUL]
  Trip_distance := ⟨6000⟩
  fare := ⟨10000⟩
  tip := ⟨2000⟩
  passenger_count := 1

/-- The same trip with a distance of 4.0 miles. -/
def tripFourMiles : TripRecord Fixed := { tripSixMiles with Trip_distance := ⟨4000⟩ }

/-- The same trip with payment type 9. -/
def tripPaymentNine : TripRecord Fixed := { tripSixMiles with Payment_type := 9 }

/-- The same trip with vendor -1. -/
def tripVendorNegative : TripRecord Fixed := { tripSixMiles with VendorID := -1 }

/-- The same trip on February 1st, 2024. -/
def tripFebruary : TripRecord Fixed :=
  { tripSixMiles with date := "2024-02-01".toList ++ [NUL] }

/-! ## Chunk ranges, specification side -/

/-- The bytes at offsets `[a, b)` of the buffer. -/
def slice (data : List Char) (a b : Nat) : List Char :=
  (data.drop a).take (b - a)

/-- The number of terminators the workers see in their ranges, summed over the workers. -/
def newlinesInRanges (data : List Char) (numThreads : Nat) : Nat :=
  ((List.range numThreads).map (fun threadId =>
    (chunkBytes data numThreads threadId).count NL)).sum

/-! ## Numbers, maps and dates, specification side; `TripRecord::isInJanuary2024` -/

/-- The number a run of decimal digits denotes (most significant digit first). -/
def decimalValue : List Char → Nat
  | [] => 0
  | c :: cs => (c.toNat - 48) * 10 ^ cs.length + decimalValue cs

/-- A buffer of one line of 8 bytes and its terminator. -/
def oneLongLine : List Char := "abcdefgh\n".toList

/-- A buffer of three terminated lines. -/
def threeLines : List Char := "ab\ncd\nef\n".toList

/-- The `count` a map holds at a key, 0 for a key it does not contain. -/
def DateMap.countAt {D : Type} (m : DateMap D) (d : List Char) : Nat :=
  ((DateMap.find m d).map (fun s => s.count)).getD 0

/-- The `passenger_sum` a map holds at a key, 0 for a key it does not contain. -/
def DateMap.passengersAt {D : Type} (m : DateMap D) (d : List Char) : Int :=
  ((DateMap.find m d).map (fun s => s.passenger_sum)).getD 0

/-- The sum of `count` at key `d` over the worker maps that contain `d`. -/
def workerCountSum {D : Type} (threadStats : List (DateMap D)) (d : List Char) : Nat :=
  (threadStats.map (fun w => DateMap.countAt w d)).sum

/-- The sum of `passenger_sum` at key `d` over the worker maps that contain `d`. -/
def workerPassengerSum {D : Type} (threadStats : List (DateMap D)) (d : List Char) : Int :=
  (threadStats.map (fun w => DateMap.passengersAt w d)).sum

/-- A worker's date map with two days. -/
def workerMapA : DateMap Fixed :=
  [("2024-01-15".toList, ⟨2, 3, ⟨12000⟩, ⟨20000⟩, ⟨4000⟩⟩),
   ("2024-01-16".toList, ⟨1, 1, ⟨6000⟩, ⟨10000⟩, ⟨2000⟩⟩)]

/-- A worker's date map with one day, holding a negative `passenger_sum`. -/
def workerMapB : DateMap Fixed :=
  [("2024-01-15".toList, ⟨5, -4, ⟨30000⟩, ⟨50000⟩, ⟨10000⟩⟩)]

/-- `strncmp(s1, s2, n)` on the bytes found at the two pointers (a list that
ends reads as NUL from there on): the difference of the first two bytes that
differ, 0 when `n` bytes or the bytes up to a common NUL agree. -/
def strncmp : Nat → List Char → List Char → Int
  | 0, _, _ => 0
  | n + 1, s1, s2 =>
    if s1.headD NUL ≠ s2.headD NUL then
      ((s1.headD NUL).toNat : Int) - ((s2.headD NUL).toNat : Int)
    else if s1.headD NUL = NUL then 0
    else strncmp n s1.tail s2.tail

/-- `TripRecord::isInJanuary2024()` (TripRecord.hpp 23-26):
`strncmp(date, "2024-01", 7) == 0`. -/
def TripRecord.isInJanuary2024 {D : Type} (record : TripRecord D) : Bool :=
  decide (strncmp 7 record.date ("2024-01".toList ++ [NUL]) = 0)

/-- A trip dated January 15th, 2023. -/
def trip2023 : TripRecord Fixed :=
  { tripSixMiles with date := "2023-01-15".toList ++ [NUL] }

/-- A line of 21 columns whose column 10 is `2024` and whose column 11 is `01-15`. -/
def tripSplitDate : List Char :=
  "1,a,b,c,d,e,2,7.5,x,y,2024,01-15,l,m,n,o,3,4,5,6,Y".toList

/-- A line whose passenger column holds `-3`: vendor 1, stored and forwarded,
January 15th, 2024. -/
def tripNegativePassengers : List Char :=
  "1,,,,,,-3,,,,2024-01-15,,,,,,2,,,Y".toList

/-- A worker's vendor array holding the largest `int32_t` as `passenger_sum` at vendor 2. -/
def vendorTwoSaturated : List VendorStats :=
  modifyAt (fun _ => ⟨7, 2147483647⟩) 2 (List.replicate MAX_VENDOR_ID VendorStats.zero)

/-- A worker's vendor array with three trips of five passengers in all at vendor 2
and the largest `int32_t` as `passenger_sum` at vendor 5. -/
def vendorTwoAndFive : List VendorStats :=
  modifyAt (fun _ => ⟨9, 2147483647⟩) 5
    (modifyAt (fun _ => ⟨3, 5⟩) 2 (List.replicate MAX_VENDOR_ID VendorStats.zero))

/-! ## Cursor positions and reads of `parseLine`, specification side -/

/-- The number of source bytes `std::strncpy(dst, curr, n)` reads: one per byte
copied, the NUL that stops the copy included. -/
def strncpyReads : Nat → List Char → Nat
  | 0, _ => 0
  | _ + 1, [] => 1
  | n + 1, c :: cs => if c = NUL then 1 else 1 + strncpyReads n cs

/-- The offsets `curr - start` of the cursors `parseLine` computes, in order: the
start of the line and the cursor after each of its 19 steps
`curr = std::find(curr, end, ',') + 1`; `none` for a cursor that is not in
`[start, end]`. -/
def cursorOffsets (line : List Char) : List (Option Nat) :=
  (List.range 20).map (fun k => (nthCursor k line).map (fun t => line.length - t.length))

/-- A merged payment array with trips under the payment types 2 and 5. -/
def paymentFinal : List (PaymentStats Fixed) :=
  [⟨0, ⟨0⟩, ⟨0⟩⟩, ⟨0, ⟨0⟩, ⟨0⟩⟩, ⟨3, ⟨30000⟩, ⟨6000⟩⟩, ⟨0, ⟨0⟩, ⟨0⟩⟩, ⟨0, ⟨0⟩, ⟨0⟩⟩,
    ⟨1, ⟨8000⟩, ⟨0⟩⟩, ⟨0, ⟨0⟩, ⟨0⟩⟩]

/-! # Properties -/

/-! ## Columns and the cursor -/

theorem columns_ne_nil (l : List Char) : columns l ≠ [] := by
  cases l with
  | nil => simp [columns]
  | cons c cs =>
    simp only [columns]
    split
    · simp
    · split <;> simp

theorem columns_unfold (l : List Char) :
    columns l = extractField l ::
      (match nextField l with
       | none => []
       | some t => columns t) := by
  induction l with
  | nil => simp [columns, extractField, nextField]
  | cons c cs ih =>
    by_cases hc : c = COMMA
    · simp [columns, extractField, nextField, hc]
    · simp only [columns, hc, if_false]
      rw [ih]
      simp [extractField, nextField, hc]

theorem extractField_eq_column (l : List Char) : extractField l = column l 0 := by
  rw [column, columns_unfold]; rfl

theorem nextField_of_length {l : List Char} (h : 2 ≤ (columns l).length) :
    ∃ t, nextField l = some t ∧ columns t = (columns l).drop 1 := by
  rw [columns_unfold] at h ⊢
  cases hn : nextField l with
  | none => simp [hn] at h
  | some t => exact ⟨t, rfl, by simp⟩

theorem nextField_none_of_length {l : List Char} (h : (columns l).length < 2) :
    nextField l = none := by
  rw [columns_unfold] at h
  cases hn : nextField l with
  | none => rfl
  | some t =>
    simp only [hn, List.length_cons] at h
    have := columns_ne_nil t
    cases ht : columns t with
    | nil => exact absurd ht this
    | cons a as => simp only [ht, List.length_cons] at h; omega

theorem intercalate_columns (l : List Char) : List.intercalate [COMMA] (columns l) = l := by
  induction l with
  | nil => simp [columns, List.intercalate]
  | cons c cs ih =>
    by_cases hc : c = COMMA
    · simp only [columns, hc, if_true]
      cases hcs : columns cs with
      | nil => exact absurd hcs (columns_ne_nil cs)
      | cons a as =>
        rw [hcs] at ih
        simp [List.intercalate] at ih ⊢
        simpa using ih
    · simp only [columns, hc, if_false]
      cases hcs : columns cs with
      | nil => exact absurd hcs (columns_ne_nil cs)
      | cons a as =>
        rw [hcs] at ih
        simp [List.intercalate] at ih ⊢
        cases as with
        | nil => simpa using ih
        | cons b bs => simpa using ih

theorem column_of_drop {l t : List Char} {n : Nat} (h : columns t = (columns l).drop n) :
    extractField t = column l n := by
  rw [extractField_eq_column, column, column, h]
  simp [List.getD_eq_getElem?_getD]

theorem fromColumn_of_drop {l t : List Char} {n : Nat} (h : columns t = (columns l).drop n) :
    t = fromColumn l n := by
  rw [fromColumn, ← h, intercalate_columns]

theorem skipFields_eq {D : Type} (record : TripRecord D) (n : Nat) :
    ∀ l : List Char, skipFields record n l =
      match nthCursor n l with
      | some t => .ok t
      | none => .error record := by
  induction n with
  | zero => intro l; rfl
  | succ n ih =>
    intro l
    cases h : nextField l with
    | none => simp [skipFields, advance, nthCursor, h]
    | some t => simp [skipFields, advance, nthCursor, h, ih]

theorem nthCursor_of_length (n : Nat) :
    ∀ {l : List Char} {k : Nat} {line : List Char}, columns l = (columns line).drop k →
      k + n + 1 ≤ (columns line).length →
      ∃ t, nthCursor n l = some t ∧ columns t = (columns line).drop (k + n) := by
  induction n with
  | zero => intro l k line hl _; exact ⟨l, rfl, by simpa using hl⟩
  | succ n ih =>
    intro l k line hl h
    have h2 : 2 ≤ (columns l).length := by rw [hl, List.length_drop]; omega
    obtain ⟨t, ht, hc⟩ := nextField_of_length h2
    have hc2 : columns t = (columns line).drop (k + 1) := by
      rw [hc, hl, List.drop_drop]
    obtain ⟨u, hu, hcu⟩ := ih hc2 (by omega)
    refine ⟨u, by simp [nthCursor, ht, hu], ?_⟩
    rw [hcu]; congr 1; omega

theorem nextField_of_drop {l line : List Char} {k : Nat}
    (hl : columns l = (columns line).drop k) (h : k + 2 ≤ (columns line).length) :
    ∃ t, nextField l = some t ∧ columns t = (columns line).drop (k + 1) := by
  obtain ⟨t, ht, hc⟩ := nthCursor_of_length 1 hl (by omega)
  refine ⟨t, ?_, hc⟩
  cases hn : nextField l with
  | none => simp [nthCursor, hn] at ht
  | some u => simpa [nthCursor, hn] using ht

/-- The record `parseLine` returns for a line with at least 20 columns. -/
theorem parseLine_of_twenty (D : Type) [DoubleOps D] (line : List Char)
    (h : 20 ≤ (columns line).length) :
    parseLine D line = .ok
      { VendorID := parseInt (column line 0)
        Payment_type := parseInt (column line 16)
        Store_and_fwd_flag := match column line 19 with
          | [] => 'N'
          | c :: _ => c
        date := strncpy 10 (fromColumn line 10) ++ [NUL]
        Trip_distance := parseDouble D (column line 7)
        fare := parseDouble D (column line 17)
        tip := parseDouble D (column line 19)
        passenger_count := parseInt (column line 6) } := by
  have c0 : columns line = (columns line).drop 0 := by simp
  obtain ⟨t1, h1, c1⟩ := nextField_of_drop c0 (by omega)
  obtain ⟨t6, h6, c6⟩ := nthCursor_of_length 5 c1 (by omega)
  obtain ⟨t7, h7, c7⟩ := nextField_of_drop c6 (by omega)
  obtain ⟨t10, h10, c10⟩ := nthCursor_of_length 3 c7 (by omega)
  obtain ⟨t11, h11, c11⟩ := nextField_of_drop c10 (by omega)
  obtain ⟨t16, h16, c16⟩ := nthCursor_of_length 5 c11 (by omega)
  obtain ⟨t17, h17, c17⟩ := nextField_of_drop c16 (by omega)
  obtain ⟨t18, h18, c18⟩ := nextField_of_drop c17 (by omega)
  obtain ⟨t19, h19, c19⟩ := nextField_of_drop c18 (by omega)
  simp only [Nat.zero_add, Nat.reduceAdd] at c1 c6 c7 c10 c11 c16 c17 c18 c19
  simp only [parseLine, advance, skipFields_eq, h1, h6, h7, h10, h11, h16, h17, h18, h19,
    bind, Except.bind, pure, Except.pure]
  rw [column_of_drop c0, column_of_drop c6, column_of_drop c7, column_of_drop c16,
    column_of_drop c17, column_of_drop c19, ← fromColumn_of_drop c10]
  cases column line 19 <;> rfl

/-- C5. On the line `7,a,b,c,d,e,3,6.5` of 8 columns `Reader::parseLine` returns
no record: the cursor reaches column 7 and reads the trip distance, the skip
loop that follows finds no separator after it and leaves the string.  On the
21-column line `trip21` the call returns with `VendorID`, `passenger_count` and
`Trip_distance` read from columns 0, 6 and 7. -/
theorem parseLine_eight_columns_undefined :
    ((columns tripEightColumns).length = 8 ∧
      column tripEightColumns 0 = ['7'] ∧ column tripEightColumns 6 = ['3'] ∧
      column tripEightColumns 7 = "6.5".toList ∧
      nthCursor 7 tripEightColumns = some "6.5".toList ∧
      nextField "6.5".toList = none ∧
      returned (parseLine Fixed tripEightColumns) = none) ∧
    ((columns trip21).length = 21 ∧
      (returned (parseLine Fixed trip21)).map
          (fun r => (r.VendorID, r.passenger_count, r.Trip_distance)) =
        some (parseInt (column trip21 0), parseInt (column trip21 6),
          parseDouble Fixed (column trip21 7)) ∧
      (parseInt (column trip21 0), parseInt (column trip21 6),
          parseDouble Fixed (column trip21 7)) = (1, 2, ⟨7500⟩)) := by
  decide

/-! ## Vectors and SIMD masks -/

theorem modifyAt_length {α : Type} (f : α → α) :
    ∀ (i : Nat) (l : List α), (modifyAt f i l).length = l.length := by
  intro i l
  induction l generalizing i with
  | nil => simp [modifyAt]
  | cons a as ih => cases i <;> simp [modifyAt, ih]

theorem modifyAt_getElem? {α : Type} (f : α → α) :
    ∀ (i j : Nat) (l : List α),
      (modifyAt f i l)[j]? = if j = i then (l[j]?).map f else l[j]? := by
  intro i j l
  induction l generalizing i j with
  | nil => simp [modifyAt]
  | cons a as ih =>
    cases i with
    | zero => cases j <;> simp [modifyAt]
    | succ i => cases j <;> simp [modifyAt, ih]

theorem movemask_low7 (b0 b1 b2 b3 b4 b5 b6 : Bool) (bs : List Bool) :
    ((movemask (b0 :: b1 :: b2 :: b3 :: b4 :: b5 :: b6 :: bs) &&& 0x7F) == 0x7F) =
      (b0 && b1 && b2 && b3 && b4 && b5 && b6) := by
  have hmod : ∀ x : Nat, x &&& 0x7F = x % 128 := fun x => Nat.and_pow_two_sub_one_eq_mod x 7
  rw [hmod]
  simp only [movemask]
  cases b0 <;> cases b1 <;> cases b2 <;> cases b3 <;> cases b4 <;> cases b5 <;> cases b6 <;>
    simp <;> omega

theorem target_bytes : "2024-01".toList = ['2', '0', '2', '4', '-', '0', '1'] := by decide

/-- `isJanuary2024SIMD` decides on the first 7 bytes of the date buffer, whatever
follows the two loaded objects in memory. -/
theorem isJanuary2024SIMD_iff (mem : SimdTail) (date : List Char) (h : 7 ≤ date.length) :
    isJanuary2024SIMD mem date = true ↔ date.take 7 = "2024-01".toList := by
  match date, h with
  | d0 :: d1 :: d2 :: d3 :: d4 :: d5 :: d6 :: rest, _ =>
    simp only [isJanuary2024SIMD, loadu_si128, TARGET_DATE_PREFIX, target_bytes, cmpeq_epi8,
      List.cons_append, List.nil_append, List.take_succ_cons, List.zipWith_cons_cons,
      movemask_low7]
    simp only [List.take_zero, Bool.and_eq_true, decide_eq_true_eq, List.cons.injEq, and_true]
    constructor
    · rintro ⟨⟨⟨⟨⟨⟨h0, h1⟩, h2⟩, h3⟩, h4⟩, h5⟩, h6⟩
      exact ⟨h0.symm, h1.symm, h2.symm, h3.symm, h4.symm, h5.symm, h6.symm⟩
    · rintro ⟨h0, h1, h2, h3, h4, h5, h6⟩
      exact ⟨⟨⟨⟨⟨⟨h0.symm, h1.symm⟩, h2.symm⟩, h3.symm⟩, h4.symm⟩, h5.symm⟩, h6.symm⟩

theorem query2Filter_iff {D : Type} [DoubleOps D] (r : TripRecord D) :
    query2Filter r = true ↔
      DoubleOps.gt r.Trip_distance (DoubleOps.threshold : D) = true ∧
        1 ≤ r.Payment_type ∧ r.Payment_type ≤ 6 := by
  unfold query2Filter MAX_PAYMENT_TYPES
  cases hg : DoubleOps.gt r.Trip_distance (DoubleOps.threshold : D) <;>
    simp [set1, movemask, hg]
  omega

theorem toSizeT_of_nonneg {x : Int} (h0 : 0 ≤ x) (h1 : x < 2 ^ 64) : toSizeT x = x.toNat := by
  unfold toSizeT
  rw [Int.emod_eq_of_lt h0 h1]

/-- C8. The fold step of query2: a record with `Trip_distance > 5.0` and
`1 <= Payment_type <= 6` adds 1 to `count` (in `size_t`), `fare` to `fare_sum`
and `tip` to `tip_sum` at key `Payment_type` and leaves every other key as it
was; any other record (one whose distance is not above the threshold, or whose
payment type is 9, say) leaves the accumulator unchanged. -/
theorem query2Step_spec (D : Type) [DoubleOps D] (localStats : List (PaymentStats D))
    (r : TripRecord D) (hlen : localStats.length = 7) :
    (DoubleOps.gt r.Trip_distance (DoubleOps.threshold : D) = true ∧
        1 ≤ r.Payment_type ∧ r.Payment_type ≤ 6 →
      ∃ old, localStats[r.Payment_type.toNat]? = some old ∧
        (query2Step localStats r)[r.Payment_type.toNat]? = some
          { count := (old.count + 1) % 2 ^ 64
            fare_sum := DoubleOps.add old.fare_sum r.fare
            tip_sum := DoubleOps.add old.tip_sum r.tip } ∧
        ∀ j, j ≠ r.Payment_type.toNat → (query2Step localStats r)[j]? = localStats[j]?) ∧
    (¬(DoubleOps.gt r.Trip_distance (DoubleOps.threshold : D) = true ∧
        1 ≤ r.Payment_type ∧ r.Payment_type ≤ 6) →
      query2Step localStats r = localStats) ∧
    (DoubleOps.gt r.Trip_distance (DoubleOps.threshold : D) = false →
      query2Step localStats r = localStats) ∧
    (r.Payment_type = 9 → query2Step localStats r = localStats) := by
  have hno : ¬(DoubleOps.gt r.Trip_distance (DoubleOps.threshold : D) = true ∧
      1 ≤ r.Payment_type ∧ r.Payment_type ≤ 6) → query2Step localStats r = localStats := by
    intro hc
    have : query2Filter r = false := by
      rw [← Bool.not_eq_true, query2Filter_iff]; exact hc
    simp [query2Step, this]
  refine ⟨?_, hno, fun hg => hno (by simp [hg]), fun h9 => hno (by omega)⟩
  intro hc
  have hf : query2Filter r = true := (query2Filter_iff r).2 hc
  have hk : toSizeT r.Payment_type = r.Payment_type.toNat :=
    toSizeT_of_nonneg (by omega) (by omega)
  have hlt : r.Payment_type.toNat < localStats.length := by omega
  refine ⟨localStats[r.Payment_type.toNat], by simp [hlt], ?_, ?_⟩
  · simp [query2Step, hf, hk, modifyAt_getElem?, wrapSizeT, hlt]
  · intro j hj
    simp [query2Step, hf, hk, modifyAt_getElem?, hj]

theorem query3Key_iff {D : Type} (mem : SimdTail) (r : TripRecord D)
    (hdate : r.date.length = 11)
    (hv : -2 ^ 31 ≤ r.VendorID ∧ r.VendorID < 2 ^ 31) (i : Nat) :
    query3Key mem r = some i ↔
      (r.Store_and_fwd_flag = 'Y' ∧ r.date.take 7 = "2024-01".toList ∧
        0 ≤ r.VendorID ∧ r.VendorID < 256) ∧ i = r.VendorID.toNat := by
  have hjan := isJanuary2024SIMD_iff mem r.date (by omega)
  unfold query3Key TARGET_FLAG MAX_VENDOR_ID
  by_cases h0 : 0 ≤ r.VendorID
  · have hk : toSizeT r.VendorID = r.VendorID.toNat := toSizeT_of_nonneg h0 (by omega)
    simp only [hk]
    constructor
    · intro h
      split at h
      · rename_i hc
        obtain ⟨hf, hj, hlt⟩ := hc
        refine ⟨⟨hf, hjan.1 hj, h0, by omega⟩, ?_⟩
        cases h; rfl
      · cases h
    · rintro ⟨⟨hf, hj, _, hlt⟩, rfl⟩
      rw [if_pos ⟨hf, hjan.2 hj, by omega⟩]
  · have hbig : ¬ toSizeT r.VendorID < 256 := by
      unfold toSizeT
      omega
    constructor
    · intro h
      split at h
      · rename_i hc; exact absurd hc.2.2 hbig
      · cases h
    · rintro ⟨⟨_, _, h1, _⟩, _⟩
      exact absurd h1 h0

theorem wrapSizeT_succ_ne (c : Nat) : wrapSizeT (c + 1) ≠ c := by
  unfold wrapSizeT
  omega

/-- C9. The fold step of query3, for every accumulator of 256 entries and every
record whose `VendorID` is an `int32_t` (negative values included): the
accumulator is updated if and only if `Store_and_fwd_flag == 'Y'`, the date
starts with `"2024-01"` and `0 <= VendorID < 256`; the update adds 1 to `count`
and `passenger_count` to `passenger_sum` (in their machine types) at key
`VendorID` and nowhere else; and an index that is written lies inside the
256-entry array. -/
theorem query3Step_spec (D : Type) (mem : SimdTail) (localStats : List VendorStats)
    (r : TripRecord D) (hlen : localStats.length = 256) (hdate : r.date.length = 11)
    (hv : -2 ^ 31 ≤ r.VendorID ∧ r.VendorID < 2 ^ 31) :
    (query3Step mem localStats r ≠ localStats ↔
      (r.Store_and_fwd_flag = 'Y' ∧ r.date.take 7 = "2024-01".toList ∧
        0 ≤ r.VendorID ∧ r.VendorID < 256)) ∧
    ((r.Store_and_fwd_flag = 'Y' ∧ r.date.take 7 = "2024-01".toList ∧
        0 ≤ r.VendorID ∧ r.VendorID < 256) →
      ∃ old, localStats[r.VendorID.toNat]? = some old ∧
        (query3Step mem localStats r)[r.VendorID.toNat]? = some
          { count := (old.count + 1) % 2 ^ 64
            passenger_sum := wrapInt32 (old.passenger_sum + r.passenger_count) } ∧
        ∀ j, j ≠ r.VendorID.toNat → (query3Step mem localStats r)[j]? = localStats[j]?) ∧
    (∀ i, query3Key mem r = some i → i < 256 ∧ i < localStats.length) := by
  have hupd : (r.Store_and_fwd_flag = 'Y' ∧ r.date.take 7 = "2024-01".toList ∧
        0 ≤ r.VendorID ∧ r.VendorID < 256) →
      ∃ old, localStats[r.VendorID.toNat]? = some old ∧
        (query3Step mem localStats r)[r.VendorID.toNat]? = some
          { count := (old.count + 1) % 2 ^ 64
            passenger_sum := wrapInt32 (old.passenger_sum + r.passenger_count) } ∧
        ∀ j, j ≠ r.VendorID.toNat → (query3Step mem localStats r)[j]? = localStats[j]? := by
    intro hc
    have hkey : query3Key mem r = some r.VendorID.toNat :=
      (query3Key_iff mem r hdate hv _).2 ⟨hc, rfl⟩
    have hlt : r.VendorID.toNat < localStats.length := by omega
    refine ⟨localStats[r.VendorID.toNat], by simp [hlt], ?_, ?_⟩
    · simp [query3Step, hkey, modifyAt_getElem?, wrapSizeT, hlt]
    · intro j hj
      simp [query3Step, hkey, modifyAt_getElem?, hj]
  refine ⟨⟨?_, ?_⟩, hupd, ?_⟩
  · intro hne
    by_contra hc
    apply hne
    have hkey : query3Key mem r = none := by
      cases hk : query3Key mem r with
      | none => rfl
      | some i => exact absurd ((query3Key_iff mem r hdate hv i).1 hk).1 hc
    simp [query3Step, hkey]
  · intro hc heq
    obtain ⟨old, hold, hnew, _⟩ := hupd hc
    rw [heq, hold] at hnew
    have hcount := congrArg VendorStats.count (Option.some.inj hnew)
    exact wrapSizeT_succ_ne old.count hcount.symm
  · intro i hi
    have := (query3Key_iff mem r hdate hv i).1 hi
    omega

/-! ## The ordered map -/

theorem strLt_irrefl (a : List Char) : strLt a a = false := by
  induction a with
  | nil => rfl
  | cons x xs ih => simp [strLt, ih]

theorem strLt_trans : ∀ {a b c : List Char}, strLt a b = true → strLt b c = true →
    strLt a c = true := by
  intro a
  induction a with
  | nil =>
    intro b c hab hbc
    cases b with
    | nil => simp [strLt] at hab
    | cons y ys =>
      cases c with
      | nil => simp [strLt] at hbc
      | cons z zs => simp [strLt]
  | cons x xs ih =>
    intro b c hab hbc
    cases b with
    | nil => simp [strLt] at hab
    | cons y ys =>
      cases c with
      | nil => simp [strLt] at hbc
      | cons z zs =>
        simp only [strLt, Bool.or_eq_true, Bool.and_eq_true, decide_eq_true_eq] at hab hbc ⊢
        rcases hab with hxy | ⟨hxy, hxs⟩
        · rcases hbc with hyz | ⟨hyz, _⟩
          · exact Or.inl (lt_trans hxy hyz)
          · exact Or.inl (hyz ▸ hxy)
        · rcases hbc with hyz | ⟨hyz, hys⟩
          · exact Or.inl (hxy ▸ hyz)
          · exact Or.inr ⟨hxy.trans hyz, ih hxs hys⟩

theorem strLt_total : ∀ {a b : List Char}, a ≠ b → strLt a b = false → strLt b a = true := by
  intro a
  induction a with
  | nil =>
    intro b hne h
    cases b with
    | nil => exact absurd rfl hne
    | cons y ys => simp [strLt] at h
  | cons x xs ih =>
    intro b hne h
    cases b with
    | nil => simp [strLt]
    | cons y ys =>
      simp only [strLt, Bool.or_eq_false_iff, Bool.and_eq_false_imp, decide_eq_false_iff_not,
        decide_eq_true_eq] at h
      simp only [strLt, Bool.or_eq_true, Bool.and_eq_true, decide_eq_true_eq]
      rcases lt_trichotomy x y with hlt | heq | hgt
      · exact absurd hlt h.1
      · refine Or.inr ⟨heq.symm, ih ?_ (h.2 heq)⟩
        intro hxs
        exact hne (by rw [heq, hxs])
      · exact Or.inl hgt

theorem DateMap.find_eq_none_of_forall_ne {D : Type} (m : DateMap D) (key : List Char)
    (h : ∀ e ∈ m, e.1 ≠ key) : DateMap.find m key = none := by
  induction m with
  | nil => rfl
  | cons e rest ih =>
    obtain ⟨k, v⟩ := e
    have hk : k ≠ key := h (k, v) (List.mem_cons_self _ _)
    simp only [DateMap.find, hk, if_false]
    exact ih (fun e he => h e (List.mem_cons_of_mem _ he))

theorem DateMap.find_modify {D : Type} [DoubleOps D] (key : List Char)
    (f : DailyStats D → DailyStats D) (m : DateMap D) (hs : DateMap.Sorted m) (d : List Char) :
    DateMap.find (DateMap.modify key f m) d =
      if d = key then some (f ((DateMap.find m key).getD (DailyStats.zero D)))
      else DateMap.find m d := by
  induction m with
  | nil =>
    by_cases hd : d = key
    · simp [DateMap.modify, DateMap.find, hd]
    · have : key ≠ d := fun h => hd h.symm
      simp [DateMap.modify, DateMap.find, hd, this]
  | cons e rest ih =>
    obtain ⟨k, v⟩ := e
    have hs' : DateMap.Sorted rest := (List.pairwise_cons.1 hs).2
    have hhead := (List.pairwise_cons.1 hs).1
    by_cases hk : k = key
    · subst hk
      by_cases hd : d = k
      · simp [DateMap.modify, DateMap.find, hd]
      · have : k ≠ d := fun h => hd h.symm
        simp [DateMap.modify, DateMap.find, hd, this]
    · by_cases hlt : strLt key k = true
      · have hnone : DateMap.find ((k, v) :: rest) key = none := by
          apply DateMap.find_eq_none_of_forall_ne
          intro e he heq
          rcases List.mem_cons.1 he with rfl | hmem
          · exact hk heq
          · have h1 : strLt k e.1 = true := hhead e hmem
            have h2 := strLt_trans hlt h1
            rw [heq, strLt_irrefl] at h2
            cases h2
        have hnone2 : DateMap.find rest key = none := by
          simpa [DateMap.find, hk] using hnone
        by_cases hd : d = key
        · simp [DateMap.modify, hk, hlt, hd, hnone2, DateMap.find]
        · have : key ≠ d := fun h => hd h.symm
          simp [DateMap.modify, hk, hlt, hd, DateMap.find, this]
      · by_cases hd : d = key
        · subst hd
          simp [DateMap.modify, hk, hlt, DateMap.find, ih hs']
        · by_cases hkd : k = d
          · subst hkd
            simp [DateMap.modify, hk, hlt, DateMap.find, hd]
          · simp [DateMap.modify, hk, hlt, DateMap.find, hkd, hd, ih hs']

theorem DateMap.mem_modify {D : Type} [DoubleOps D] (key : List Char)
    (f : DailyStats D → DailyStats D) (m : DateMap D) :
    ∀ e ∈ DateMap.modify key f m, e.1 = key ∨ ∃ e2 ∈ m, e2.1 = e.1 := by
  induction m with
  | nil =>
    intro e he
    simp only [DateMap.modify, List.mem_singleton] at he
    exact Or.inl (by rw [he])
  | cons e0 rest ih =>
    obtain ⟨k, v⟩ := e0
    intro e he
    simp only [DateMap.modify] at he
    split at he
    · rename_i hk
      rcases List.mem_cons.1 he with rfl | hmem
      · exact Or.inl hk
      · exact Or.inr ⟨e, List.mem_cons_of_mem _ hmem, rfl⟩
    · split at he
      · rcases List.mem_cons.1 he with rfl | hmem
        · exact Or.inl rfl
        · exact Or.inr ⟨e, hmem, rfl⟩
      · rcases List.mem_cons.1 he with h0 | hmem
        · exact Or.inr ⟨(k, v), List.mem_cons_self _ _, by rw [h0]⟩
        · rcases ih e hmem with h | ⟨e2, h2, h3⟩
          · exact Or.inl h
          · exact Or.inr ⟨e2, List.mem_cons_of_mem _ h2, h3⟩

theorem DateMap.sorted_modify {D : Type} [DoubleOps D] (key : List Char)
    (f : DailyStats D → DailyStats D) (m : DateMap D) (hs : DateMap.Sorted m) :
    DateMap.Sorted (DateMap.modify key f m) := by
  induction m with
  | nil => simp [DateMap.modify, DateMap.Sorted]
  | cons e0 rest ih =>
    obtain ⟨k, v⟩ := e0
    have hs' : DateMap.Sorted rest := (List.pairwise_cons.1 hs).2
    have hhead := (List.pairwise_cons.1 hs).1
    simp only [DateMap.modify]
    split
    · exact List.pairwise_cons.2 ⟨hhead, hs'⟩
    · rename_i hk
      split
      · rename_i hlt
        refine List.pairwise_cons.2 ⟨?_, hs⟩
        intro e he
        rcases List.mem_cons.1 he with rfl | hmem
        · exact hlt
        · exact strLt_trans hlt (hhead e hmem)
      · rename_i hlt
        refine List.pairwise_cons.2 ⟨?_, ih hs'⟩
        intro e he
        rcases DateMap.mem_modify key f rest e he with h | ⟨e2, h2, h3⟩
        · rw [h]
          exact strLt_total (fun h => hk h.symm) (by simpa using hlt)
        · rw [← h3]; exact hhead e2 h2

theorem januaryCount_append_singleton {D : Type} (d : List Char) (rs : List (TripRecord D))
    (r : TripRecord D) :
    januaryCount d (rs ++ [r]) = januaryCount d rs +
      (if r.date.take 7 = "2024-01".toList ∧ r.date.take 10 = d then 1 else 0) := by
  unfold januaryCount
  rw [List.countP_append]
  by_cases h : r.date.take 7 = "2024-01".toList ∧ r.date.take 10 = d
  · have : (decide (r.date.take 7 = "2024-01".toList) && decide (r.date.take 10 = d)) = true := by
      rw [Bool.and_eq_true, decide_eq_true_eq, decide_eq_true_eq]
      exact h
    rw [if_pos h, List.countP_singleton, this, if_pos rfl]
  · rw [if_neg h]
    have : (decide (r.date.take 7 = "2024-01".toList) && decide (r.date.take 10 = d)) = false := by
      rw [Bool.and_eq_false_iff, decide_eq_false_iff_not, decide_eq_false_iff_not]
      exact not_and_or.1 h
    simp only [List.countP_singleton, this, Bool.false_eq_true, if_false]

/-- What the query4 fold keeps true of the worker's map, record after record. -/
theorem query4_fold_invariant {D : Type} [DoubleOps D] (mem : SimdTail)
    (records : List (TripRecord D)) (hdate : ∀ r ∈ records, r.date.length = 11) :
    DateMap.Sorted (records.foldl (query4Step mem) []) ∧
    ∀ d, (januaryCount d records = 0 →
        DateMap.find (records.foldl (query4Step mem) []) d = none) ∧
      (0 < januaryCount d records →
        ∃ s, DateMap.find (records.foldl (query4Step mem) []) d = some s ∧
          s.count = januaryCount d records % 2 ^ 64) := by
  induction records using List.reverseRecOn with
  | nil =>
    refine ⟨List.Pairwise.nil, fun d => ⟨fun _ => rfl, fun h => ?_⟩⟩
    simp [januaryCount] at h
  | append_singleton rs r ih =>
    have hr : r.date.length = 11 := hdate r (by simp)
    obtain ⟨hsorted, hcount⟩ := ih (fun x hx => hdate x (by simp [hx]))
    have hjan := isJanuary2024SIMD_iff mem r.date (by omega)
    rw [List.foldl_append, List.foldl_cons, List.foldl_nil]
    by_cases hj : isJanuary2024SIMD mem r.date = true
    · have hpre : r.date.take 7 = "2024-01".toList := hjan.1 hj
      simp only [query4Step, hj, if_true]
      refine ⟨DateMap.sorted_modify _ _ _ hsorted, fun d => ?_⟩
      rw [DateMap.find_modify _ _ _ hsorted, januaryCount_append_singleton]
      by_cases hd : d = r.date.take 10
      · subst hd
        simp only [hpre, true_and, if_true]
        refine ⟨fun h => by omega, fun _ => ⟨_, rfl, ?_⟩⟩
        rcases Nat.eq_zero_or_pos (januaryCount (r.date.take 10) rs) with h0 | hpos
        · rw [(hcount _).1 h0, h0]
          simp [DailyStats.zero, wrapSizeT]
        · obtain ⟨s, hs, hc⟩ := (hcount _).2 hpos
          rw [hs]
          simp only [Option.getD_some, wrapSizeT, hc]
          omega
      · have hd2 : ¬ r.date.take 10 = d := fun h => hd h.symm
        simp only [hd, hd2, and_false, if_false, Nat.add_zero]
        exact hcount d
    · have hpre : ¬ r.date.take 7 = "2024-01".toList := fun h => hj (hjan.2 h)
      simp only [query4Step, hj]
      refine ⟨hsorted, fun d => ?_⟩
      rw [januaryCount_append_singleton]
      simp only [hpre, false_and, if_false, Nat.add_zero]
      exact hcount d

theorem januaryCount_le_length {D : Type} (d : List Char) (records : List (TripRecord D)) :
    januaryCount d records ≤ records.length :=
  List.countP_le_length _

/-- C10. For every list of records (each with its 11-byte date buffer; fewer than
`2^64` of them) folded by the query4 loop into an initially empty map, and every
key `d`: the count stored at `d` is the number of records whose date starts with
`"2024-01"` and whose 10 date bytes are `d`, and a key with no such record is
absent from the map. -/
theorem query4_count_spec (D : Type) [DoubleOps D] (mem : SimdTail)
    (records : List (TripRecord D)) (d : List Char)
    (hdate : ∀ r ∈ records, r.date.length = 11) (hlen : records.length < 2 ^ 64) :
    (0 < januaryCount d records →
      ∃ s, DateMap.find (records.foldl (query4Step mem) []) d = some s ∧
        s.count = januaryCount d records) ∧
    (januaryCount d records = 0 →
      DateMap.find (records.foldl (query4Step mem) []) d = none) := by
  obtain ⟨_, hcount⟩ := query4_fold_invariant mem records hdate
  refine ⟨fun hpos => ?_, (hcount d).1⟩
  obtain ⟨s, hs, hc⟩ := (hcount d).2 hpos
  refine ⟨s, hs, ?_⟩
  rw [hc]
  exact Nat.mod_eq_of_lt (lt_of_le_of_lt (januaryCount_le_length d records) hlen)

/-! ## Evaluations -/

/-- C4. On the line `trip21` of 21 columns `Reader::parseLine` returns a record
whose `date` is the first 10 bytes of column 10, not of column 11, whose
`Payment_type` is `parseInt(column 16)`, not `parseInt(column 17)`, whose `fare`
is `parseDouble(column 17)`, not `parseDouble(column 18)`, and whose `tip` is
`parseDouble(column 19)`, not `parseDouble(column 20)`: after the trip distance
is read the cursor is not moved past it, so the three-column skip that follows
ends one column early. -/
theorem parseLine_columns_shifted :
    (columns trip21).length = 21 ∧
    ((returned (parseLine Fixed trip21)).map (fun r => r.date) =
        some ("2024-01-15".toList ++ [NUL]) ∧
      (column trip21 10).take 10 = "2024-01-15".toList ∧
      (column trip21 11).take 10 = "2024-02-20".toList) ∧
    ((returned (parseLine Fixed trip21)).map (fun r => r.Payment_type) = some 3 ∧
      parseInt (column trip21 16) = 3 ∧ parseInt (column trip21 17) = 4) ∧
    ((returned (parseLine Fixed trip21)).map (fun r => r.fare) = some ⟨4000⟩ ∧
      parseDouble Fixed (column trip21 17) = ⟨4000⟩ ∧
      parseDouble Fixed (column trip21 18) = ⟨5000⟩) ∧
    ((returned (parseLine Fixed trip21)).map (fun r => r.tip) = some ⟨6000⟩ ∧
      parseDouble Fixed (column trip21 19) = ⟨6000⟩ ∧
      parseDouble Fixed (column trip21 20) = ⟨8000⟩) := by
  decide

/-- C6. On a line of 21 columns whose last column is `Y` and whose column 19 is
`2.5`, `Reader::parseLine` sets `Store_and_fwd_flag` to `'2'`, the first byte of
the column `tip` was read from; and with column 19 empty the flag stays `'N'`
although the last column is `Y`. -/
theorem parseLine_flag_from_tip_column :
    ((columns tripFlagY).length = 21 ∧
      column tripFlagY 20 = ['Y'] ∧ column tripFlagY 19 = "2.5".toList ∧
      (returned (parseLine Fixed tripFlagY)).map (fun r => r.Store_and_fwd_flag) = some '2') ∧
    ((columns tripFlagNoTip).length = 21 ∧
      column tripFlagNoTip 20 = ['Y'] ∧ column tripFlagNoTip 19 = [] ∧
      (returned (parseLine Fixed tripFlagNoTip)).map (fun r => r.Store_and_fwd_flag) =
        some 'N') := by
  decide

/-- C1. With two workers on `"ab\ncd\nef\n"` the line `cd` is handed to no
`parseLine` call and an empty line that the buffer does not contain is; with one
worker on `"a"` the trailing line `a` is not parsed. -/
theorem scan_skips_lines :
    (linesHandedToParser "ab\ncd\nef\n".toList 2 = [["ab".toList], [[], "ef".toList]] ∧
      specLines [] "ab\ncd\nef\n".toList = ["ab".toList, "cd".toList, "ef".toList] ∧
      (alignedStart "ab\ncd\nef\n".toList 2 0, alignedEnd "ab\ncd\nef\n".toList 2 0) = (0, 5) ∧
      (alignedStart "ab\ncd\nef\n".toList 2 1, alignedEnd "ab\ncd\nef\n".toList 2 1) = (5, 9)) ∧
    (linesHandedToParser "a".toList 1 = [[]] ∧ specLines [] "a".toList = ["a".toList]) := by
  decide

/-- C2. On a buffer of two January trips query4 with one worker files both under
`2024-01-15` (count 2, passenger_sum 4); with eight workers no worker is handed
either line, two workers are handed an empty line, and the run is undefined. -/
theorem query4_one_worker_vs_eight :
    (query4 Fixed ⟨[], []⟩ twoTrips 1).map
        (fun m => (DateMap.find m "2024-01-15".toList).map (fun s => (s.count, s.passenger_sum))) =
      some (some (2, 4)) ∧
    linesHandedToParser twoTrips 8 = [[], [], [], [], [[]], [], [], [[]]] ∧
    (query4 Fixed ⟨[], []⟩ twoTrips 8).isNone = true := by
  decide

/-- C3. On a 72-byte buffer holding three records query1 with two workers
prints 2: worker 0 counts its bytes 32..39 at offsets 64..71. -/
theorem query1_miscounts :
    buf72.length = 72 ∧ recordCount buf72 = 3 ∧ query1 buf72 2 = some 2 ∧
    (alignedStart buf72 2 0, alignedEnd buf72 2 0) = (0, 40) ∧
    (alignedStart buf72 2 1, alignedEnd buf72 2 1) = (40, 72) := by
  decide

/-- C7. One worker with `count = 1`, `passenger_sum = 2` at vendor 1 and at
vendor 4: the merged array has them at key 4 and zeros at key 1. -/
theorem query3Merge_skips_keys :
    (vendorOneAndFour.getD 1 VendorStats.zero, vendorOneAndFour.getD 4 VendorStats.zero) =
      (⟨1, 2⟩, ⟨1, 2⟩) ∧
    (query3Merge [vendorOneAndFour]).getD 4 VendorStats.zero = ⟨1, 2⟩ ∧
    (query3Merge [vendorOneAndFour]).getD 1 VendorStats.zero = ⟨0, 0⟩ := by
  decide

/-! ## The fold steps on concrete records -/

theorem query2Step_spec_witness :
    (List.replicate 7 (PaymentStats.zero Fixed)).length = 7 ∧
    (∃ old, (List.replicate 7 (PaymentStats.zero Fixed))[2]? = some old ∧
      (query2Step (List.replicate 7 (PaymentStats.zero Fixed)) tripSixMiles)[2]? = some
        { count := (old.count + 1) % 2 ^ 64
          fare_sum := DoubleOps.add old.fare_sum ⟨10000⟩
          tip_sum := DoubleOps.add old.tip_sum ⟨2000⟩ } ∧
      ∀ j, j ≠ 2 → (query2Step (List.replicate 7 (PaymentStats.zero Fixed)) tripSixMiles)[j]? =
        (List.replicate 7 (PaymentStats.zero Fixed))[j]?) ∧
    query2Step (List.replicate 7 (PaymentStats.zero Fixed)) tripFourMiles =
      List.replicate 7 (PaymentStats.zero Fixed) ∧
    query2Step (List.replicate 7 (PaymentStats.zero Fixed)) tripPaymentNine =
      List.replicate 7 (PaymentStats.zero Fixed) :=
  ⟨by decide,
    (query2Step_spec Fixed _ tripSixMiles (by decide)).1 (by decide),
    (query2Step_spec Fixed _ tripFourMiles (by decide)).2.2.1 (by decide),
    (query2Step_spec Fixed _ tripPaymentNine (by decide)).2.2.2 (by decide)⟩

theorem query3Step_spec_witness :
    (List.replicate 256 VendorStats.zero).length = 256 ∧
    (∃ old, (List.replicate 256 VendorStats.zero)[2]? = some old ∧
      (query3Step ⟨[], []⟩ (List.replicate 256 VendorStats.zero) tripSixMiles)[2]? = some
        { count := (old.count + 1) % 2 ^ 64
          passenger_sum := wrapInt32 (old.passenger_sum + 1) } ∧
      ∀ j, j ≠ 2 →
        (query3Step ⟨[], []⟩ (List.replicate 256 VendorStats.zero) tripSixMiles)[j]? =
          (List.replicate 256 VendorStats.zero)[j]?) ∧
    ¬ (query3Step ⟨[], []⟩ (List.replicate 256 VendorStats.zero) tripVendorNegative ≠
      List.replicate 256 VendorStats.zero) ∧
    ¬ (query3Step ⟨[], []⟩ (List.replicate 256 VendorStats.zero) tripFebruary ≠
      List.replicate 256 VendorStats.zero) :=
  ⟨List.length_replicate _ _,
    (query3Step_spec Fixed ⟨[], []⟩ _ tripSixMiles (List.length_replicate _ _) (by decide)
      (by decide)).2.1
      (by decide),
    fun h => absurd
      ((query3Step_spec Fixed ⟨[], []⟩ _ tripVendorNegative (List.length_replicate _ _)
        (by decide) (by decide)).1.1 h) (by decide),
    fun h => absurd
      ((query3Step_spec Fixed ⟨[], []⟩ _ tripFebruary (List.length_replicate _ _)
        (by decide) (by decide)).1.1 h) (by decide)⟩

theorem query4_count_spec_witness :
    (∃ s, DateMap.find ([tripSixMiles, tripFebruary, tripFourMiles].foldl
        (query4Step ⟨[], []⟩) []) "2024-01-15".toList = some s ∧ s.count = 2) ∧
    DateMap.find ([tripSixMiles, tripFebruary, tripFourMiles].foldl
        (query4Step ⟨[], []⟩) []) "2024-02-01".toList = none := by
  obtain ⟨s, hs, hc⟩ := (query4_count_spec Fixed ⟨[], []⟩
    [tripSixMiles, tripFebruary, tripFourMiles] "2024-01-15".toList (by decide) (by decide)).1
    (by decide)
  exact ⟨⟨s, hs, hc.trans (by decide)⟩,
    (query4_count_spec Fixed ⟨[], []⟩ [tripSixMiles, tripFebruary, tripFourMiles]
      "2024-02-01".toList (by decide) (by decide)).2 (by decide)⟩

/-! ## The chunk ranges -/

theorem skipToNewline_bounds (data : List Char) :
    ∀ (fuel pos : Nat), pos ≤ skipToNewline data fuel pos ∧
      skipToNewline data fuel pos ≤ pos + fuel := by
  intro fuel
  induction fuel with
  | zero => intro pos; simp [skipToNewline]
  | succ n ih =>
    intro pos
    simp only [skipToNewline]
    split
    · have := ih (pos + 1)
      omega
    · omega

theorem skipToNewline_no_newline (data : List Char) :
    ∀ (fuel pos q : Nat), pos ≤ q → q < skipToNewline data fuel pos →
      data.getD q NUL ≠ NL := by
  intro fuel
  induction fuel with
  | zero => intro pos q h1 h2; simp [skipToNewline] at h2; omega
  | succ n ih =>
    intro pos q h1 h2
    simp only [skipToNewline] at h2
    split at h2
    · rename_i hne
      rcases Nat.eq_or_lt_of_le h1 with heq | hlt
      · rw [← heq]; exact hne
      · exact ih (pos + 1) q hlt h2
    · omega

theorem chunkSize_mul_le (data : List Char) (numThreads i : Nat) (hi : i ≤ numThreads) :
    i * chunkSize data numThreads ≤ data.length := by
  unfold chunkSize
  calc i * (data.length / numThreads) ≤ numThreads * (data.length / numThreads) :=
        Nat.mul_le_mul_right _ hi
    _ ≤ data.length := Nat.mul_div_le _ _

theorem nominal_le (data : List Char) (numThreads i : Nat) (hi : i < numThreads) :
    nominalStart data numThreads i ≤ nominalEnd data numThreads i ∧
      nominalEnd data numThreads i ≤ data.length := by
  unfold nominalStart nominalEnd
  split
  · exact ⟨chunkSize_mul_le data numThreads i (by omega), Nat.le_refl _⟩
  · exact ⟨Nat.mul_le_mul_right _ (by omega), chunkSize_mul_le data numThreads (i + 1) (by omega)⟩

/-- The adjusted bounds of a worker against its nominal ones. -/
theorem aligned_bounds (data : List Char) (numThreads i : Nat) (hi : i < numThreads) :
    nominalStart data numThreads i ≤ alignedStart data numThreads i ∧
    alignedStart data numThreads i ≤ nominalEnd data numThreads i ∧
    nominalEnd data numThreads i ≤ alignedEnd data numThreads i ∧
    alignedEnd data numThreads i ≤ data.length := by
  obtain ⟨h1, h2⟩ := nominal_le data numThreads i hi
  unfold alignedStart alignedEnd
  refine ⟨?_, ?_, ?_, ?_⟩
  · split
    · exact (skipToNewline_bounds data _ _).1
    · exact Nat.le_refl _
  · split
    · have := (skipToNewline_bounds data
        (nominalEnd data numThreads i - nominalStart data numThreads i)
        (nominalStart data numThreads i)).2
      omega
    · exact h1
  · split
    · exact (skipToNewline_bounds data _ _).1
    · exact Nat.le_refl _
  · split
    · have := (skipToNewline_bounds data
        (data.length - nominalEnd data numThreads i) (nominalEnd data numThreads i)).2
      omega
    · exact h2

/-- No terminator lies between a nominal bound and the adjusted one. -/
theorem aligned_no_newline (data : List Char) (numThreads i q : Nat) :
    (nominalStart data numThreads i ≤ q → q < alignedStart data numThreads i →
      data.getD q NUL ≠ NL) ∧
    (nominalEnd data numThreads i ≤ q → q < alignedEnd data numThreads i →
      data.getD q NUL ≠ NL) := by
  unfold alignedStart alignedEnd
  constructor
  · intro h1 h2
    split at h2
    · exact skipToNewline_no_newline data _ _ q h1 h2
    · omega
  · intro h1 h2
    split at h2
    · exact skipToNewline_no_newline data _ _ q h1 h2
    · omega

theorem slice_append (data : List Char) {a b c : Nat} (hab : a ≤ b) (hbc : b ≤ c) :
    slice data a c = slice data a b ++ slice data b c := by
  unfold slice
  have h : c - a = (b - a) + (c - b) := by omega
  rw [h, List.take_add, List.drop_drop]
  congr 3
  omega

theorem slice_count_zero (data : List Char) (a b : Nat)
    (h : ∀ q, a ≤ q → q < b → data.getD q NUL ≠ NL) : (slice data a b).count NL = 0 := by
  rw [List.count_eq_zero, List.mem_iff_getElem?]
  rintro ⟨n, hn⟩
  unfold slice at hn
  rw [List.getElem?_take] at hn
  split at hn
  · rename_i hlt
    rw [List.getElem?_drop] at hn
    exact h (a + n) (by omega) (by omega) (by simp [hn])
  · cases hn

theorem slice_full (data : List Char) : slice data 0 data.length = data := by
  simp [slice]

/-- A worker finds in its range the terminators of its nominal range. -/
theorem chunkBytes_count (data : List Char) (numThreads i : Nat) (hi : i < numThreads) :
    (chunkBytes data numThreads i).count NL =
      (slice data (nominalStart data numThreads i) (nominalEnd data numThreads i)).count NL := by
  obtain ⟨h1, h2, h3, _⟩ := aligned_bounds data numThreads i hi
  have hs := slice_count_zero data (nominalStart data numThreads i)
    (alignedStart data numThreads i) (fun q => (aligned_no_newline data numThreads i q).1)
  have he := slice_count_zero data (nominalEnd data numThreads i)
    (alignedEnd data numThreads i) (fun q => (aligned_no_newline data numThreads i q).2)
  have e1 := slice_append data h1 (Nat.le_trans h2 h3)
  have e2 := slice_append data (Nat.le_trans h1 h2) h3
  have e3 : chunkBytes data numThreads i =
      slice data (alignedStart data numThreads i) (alignedEnd data numThreads i) := rfl
  have c1 := congrArg (List.count NL) e1
  have c2 := congrArg (List.count NL) e2
  rw [List.count_append] at c1 c2
  rw [e3]
  omega

theorem nominal_prefix_count (data : List Char) (cs : Nat) :
    ∀ k : Nat, ((List.range k).map (fun i =>
      (slice data (i * cs) ((i + 1) * cs)).count NL)).sum = (slice data 0 (k * cs)).count NL := by
  intro k
  induction k with
  | zero => simp [slice]
  | succ k ih =>
    rw [List.range_succ, List.map_append, List.sum_append, ih]
    have h := slice_append data (Nat.zero_le (k * cs))
      (Nat.mul_le_mul_right cs (Nat.le_add_right k 1))
    have c := congrArg (List.count NL) h
    rw [List.count_append] at c
    simp only [List.map_cons, List.map_nil, List.sum_cons, List.sum_nil, Nat.add_zero]
    omega

theorem newlinesInRanges_eq (data : List Char) (numThreads : Nat) (hW : 1 ≤ numThreads) :
    newlinesInRanges data numThreads = data.count NL := by
  obtain ⟨m, rfl⟩ : ∃ m, numThreads = m + 1 := ⟨numThreads - 1, by omega⟩
  unfold newlinesInRanges
  have hcongr : (List.range (m + 1)).map (fun threadId =>
      (chunkBytes data (m + 1) threadId).count NL) =
      (List.range (m + 1)).map (fun i =>
        (slice data (nominalStart data (m + 1) i) (nominalEnd data (m + 1) i)).count NL) := by
    apply List.map_congr_left
    intro i hi
    exact chunkBytes_count data (m + 1) i (List.mem_range.1 hi)
  rw [hcongr, List.range_succ, List.map_append, List.sum_append]
  have hpre : (List.range m).map (fun i =>
      (slice data (nominalStart data (m + 1) i) (nominalEnd data (m + 1) i)).count NL) =
      (List.range m).map (fun i =>
        (slice data (i * chunkSize data (m + 1)) ((i + 1) * chunkSize data (m + 1))).count NL) := by
    apply List.map_congr_left
    intro i hi
    have hlt : i < m := List.mem_range.1 hi
    have hne : ¬ i = m + 1 - 1 := by omega
    simp only [nominalStart, nominalEnd, hne, if_false]
  rw [hpre, nominal_prefix_count]
  have hlast : nominalEnd data (m + 1) m = data.length := by simp [nominalEnd]
  simp only [List.map_cons, List.map_nil, List.sum_cons, List.sum_nil, Nat.add_zero, hlast,
    nominalStart]
  have hle : m * chunkSize data (m + 1) ≤ data.length := chunkSize_mul_le data (m + 1) m (by omega)
  have h := slice_append data (Nat.zero_le (m * chunkSize data (m + 1))) hle
  have c := congrArg (List.count NL) h
  rw [List.count_append, slice_full] at c
  omega

/-- A terminator lies in a worker's adjusted range exactly when it lies in the
nominal one. -/
theorem newline_mem_aligned_iff (data : List Char) (numThreads i p : Nat) (hi : i < numThreads)
    (hp : data[p]? = some NL) :
    (alignedStart data numThreads i ≤ p ∧ p < alignedEnd data numThreads i) ↔
      (nominalStart data numThreads i ≤ p ∧ p < nominalEnd data numThreads i) := by
  obtain ⟨h1, h2, h3, _⟩ := aligned_bounds data numThreads i hi
  have hnl : data.getD p NUL = NL := by simp [hp]
  obtain ⟨hs, he⟩ := aligned_no_newline data numThreads i p
  constructor
  · rintro ⟨ha, hb⟩
    refine ⟨by omega, ?_⟩
    by_contra hcon
    exact he (by omega) hb hnl
  · rintro ⟨ha, hb⟩
    refine ⟨?_, by omega⟩
    by_contra hcon
    exact hs ha (by omega) hnl

/-- Every offset of the buffer lies in exactly one nominal range. -/
theorem nominal_partition (data : List Char) (numThreads p : Nat) (hW : 1 ≤ numThreads)
    (hp : p < data.length) :
    ∃ i, (i < numThreads ∧ nominalStart data numThreads i ≤ p ∧
        p < nominalEnd data numThreads i) ∧
      ∀ j, (j < numThreads ∧ nominalStart data numThreads j ≤ p ∧
        p < nominalEnd data numThreads j) → j = i := by
  have huniq : ∀ a b, a < b →
      (a < numThreads ∧ nominalStart data numThreads a ≤ p ∧ p < nominalEnd data numThreads a) →
      (b < numThreads ∧ nominalStart data numThreads b ≤ p ∧ p < nominalEnd data numThreads b) →
      False := by
    intro a b hab ⟨_, _, ha⟩ ⟨hb, hb2, _⟩
    have hne : ¬ a = numThreads - 1 := by omega
    simp only [nominalEnd, hne, if_false] at ha
    simp only [nominalStart] at hb2
    have : (a + 1) * chunkSize data numThreads ≤ b * chunkSize data numThreads :=
      Nat.mul_le_mul_right _ (by omega)
    omega
  have hexists : ∃ i, i < numThreads ∧ nominalStart data numThreads i ≤ p ∧
      p < nominalEnd data numThreads i := by
    by_cases hlast : (numThreads - 1) * chunkSize data numThreads ≤ p
    · exact ⟨numThreads - 1, by omega, hlast, by simp [nominalEnd, hp]⟩
    · have hcs : 0 < chunkSize data numThreads := by
        rcases Nat.eq_zero_or_pos (chunkSize data numThreads) with h0 | h0
        · rw [h0] at hlast; simp at hlast
        · exact h0
      have hdiv : p / chunkSize data numThreads < numThreads - 1 := by
        rw [Nat.div_lt_iff_lt_mul hcs]; omega
      have hne : ¬ p / chunkSize data numThreads = numThreads - 1 := by omega
      refine ⟨p / chunkSize data numThreads, by omega, Nat.div_mul_le_self _ _, ?_⟩
      simp only [nominalEnd, hne, if_false]
      have hlt := Nat.lt_div_mul_add (a := p) hcs
      rw [Nat.add_mul, Nat.one_mul]
      exact hlt
  obtain ⟨i, hi⟩ := hexists
  refine ⟨i, hi, fun j hj => ?_⟩
  rcases Nat.lt_trichotomy j i with h | h | h
  · exact absurd (huniq j i h hj hi) id
  · exact h
  · exact absurd (huniq i j h hi hj) id

/-- C13. For every buffer and every `W >= 1` (also `W` greater than the length,
where the nominal chunk size is 0): every `'\n'` of the buffer lies in the
adjusted range `[start_i, end_i)` of exactly one worker, and the numbers of
`'\n'` bytes in the workers' ranges add up to the number of `'\n'` bytes of the
buffer. -/
theorem newline_in_exactly_one_range (data : List Char) (numThreads : Nat)
    (hW : 1 ≤ numThreads) :
    (∀ p, data[p]? = some NL →
      ∃ i, (i < numThreads ∧ alignedStart data numThreads i ≤ p ∧
          p < alignedEnd data numThreads i) ∧
        ∀ j, (j < numThreads ∧ alignedStart data numThreads j ≤ p ∧
          p < alignedEnd data numThreads j) → j = i) ∧
    newlinesInRanges data numThreads = data.count NL := by
  refine ⟨fun p hp => ?_, newlinesInRanges_eq data numThreads hW⟩
  have hlt : p < data.length := by
    rcases Nat.lt_or_ge p data.length with h | h
    · exact h
    · rw [List.getElem?_eq_none h] at hp; cases hp
  obtain ⟨i, ⟨hi, hin⟩, huniq⟩ := nominal_partition data numThreads p hW hlt
  refine ⟨i, ⟨hi, (newline_mem_aligned_iff data numThreads i p hi hp).2 hin⟩, ?_⟩
  rintro j ⟨hj, hjin⟩
  exact huniq j ⟨hj, (newline_mem_aligned_iff data numThreads j p hj hp).1 hjin⟩

theorem newline_in_exactly_one_range_witness :
    (1 ≤ 8) ∧
    (∀ p, twoTrips[p]? = some NL →
      ∃ i, (i < 8 ∧ alignedStart twoTrips 8 i ≤ p ∧ p < alignedEnd twoTrips 8 i) ∧
        ∀ j, (j < 8 ∧ alignedStart twoTrips 8 j ≤ p ∧ p < alignedEnd twoTrips 8 j) → j = i) ∧
    newlinesInRanges twoTrips 8 = 2 ∧
    newlinesInRanges "ab".toList 5 = 0 :=
  ⟨by decide, (newline_in_exactly_one_range twoTrips 8 (by decide)).1,
    (newline_in_exactly_one_range twoTrips 8 (by decide)).2.trans (by decide),
    (newline_in_exactly_one_range "ab".toList 5 (by decide)).2.trans (by decide)⟩

/-- C11. On the 9-byte buffer `"abcdefgh\n"` with three workers the adjusted
ranges are `[0, 8)`, `[6, 8)` and `[8, 9)`: their union is `[0, 9)`, but the
offsets 6 and 7 lie in the ranges of worker 0 and of worker 1. -/
theorem ranges_overlap :
    (List.range 3).map (fun i => (alignedStart oneLongLine 3 i, alignedEnd oneLongLine 3 i)) =
      [(0, 8), (6, 8), (8, 9)] ∧
    (alignedStart oneLongLine 3 0 ≤ 6 ∧ 6 < alignedEnd oneLongLine 3 0) ∧
    (alignedStart oneLongLine 3 1 ≤ 6 ∧ 6 < alignedEnd oneLongLine 3 1) := by
  decide

/-- C12. On `"ab\ncd\nef\n"` with two workers the ranges are `[0, 5)` and `[5, 9)`:
the first ends, and the second starts, at offset 5, which is the `'\n'` itself and
follows the byte `d`; the terminator of `cd` belongs to the range after it. -/
theorem ranges_stop_at_terminator :
    (List.range 2).map (fun i => (alignedStart threeLines 2 i, alignedEnd threeLines 2 i)) =
      [(0, 5), (5, 9)] ∧
    threeLines.length = 9 ∧ threeLines[4]? = some 'd' ∧ threeLines[5]? = some NL := by
  decide

/-! ## `parseInt` -/

theorem digitsValue_nil (acc : Nat) : digitsValue acc [] = acc := rfl

theorem digitsValue_cons (acc : Nat) (c : Char) (cs : List Char) :
    digitsValue acc (c :: cs) = digitsValue (acc * 10 + (c.toNat - 48)) cs := rfl

theorem decimalValue_nil : decimalValue [] = 0 := rfl

theorem decimalValue_cons (c : Char) (cs : List Char) :
    decimalValue (c :: cs) = (c.toNat - 48) * 10 ^ cs.length + decimalValue cs := rfl

theorem digitsValue_eq :
    ∀ (ds : List Char) (acc : Nat),
      digitsValue acc ds = acc * 10 ^ ds.length + decimalValue ds := by
  intro ds
  induction ds with
  | nil => intro acc; rw [digitsValue_nil, decimalValue_nil]; simp
  | cons c cs ih =>
    intro acc
    rw [digitsValue_cons, ih, decimalValue_cons, List.length_cons, Nat.pow_succ]
    ring

theorem digitsValue_zero (ds : List Char) : digitsValue 0 ds = decimalValue ds := by
  rw [digitsValue_eq]; simp

theorem isDigit_ne_minus {c : Char} (h : isDigit c = true) : c ≠ '-' := by
  intro hc
  subst hc
  revert h
  decide

theorem takeWhile_digits_append (ds rest : List Char) (hds : ∀ c ∈ ds, isDigit c = true)
    (hrest : ∀ c, rest.head? = some c → isDigit c = false) :
    (ds ++ rest).takeWhile isDigit = ds := by
  induction ds with
  | nil =>
    cases rest with
    | nil => rfl
    | cons r rs => simp [List.takeWhile_cons, hrest r rfl]
  | cons d ds ih =>
    have hd : isDigit d = true := hds d (List.mem_cons_self _ _)
    simp only [List.cons_append, List.takeWhile_cons, hd, if_true]
    rw [ih (fun c hc => hds c (List.mem_cons_of_mem _ hc))]

theorem from_chars_int32_digits (ds rest : List Char) (hne : ds ≠ [])
    (hds : ∀ c ∈ ds, isDigit c = true)
    (hrest : ∀ c, rest.head? = some c → isDigit c = false) :
    from_chars_int32 (ds ++ rest) =
      (if decimalValue ds ≤ 2147483647 then some (decimalValue ds : Int) else none) ∧
    from_chars_int32 ('-' :: (ds ++ rest)) =
      (if decimalValue ds ≤ 2147483648 then some (-(decimalValue ds : Int)) else none) := by
  have htw := takeWhile_digits_append ds rest hds hrest
  obtain ⟨d, ds2, rfl⟩ : ∃ d ds2, ds = d :: ds2 := by
    cases ds with
    | nil => exact absurd rfl hne
    | cons d ds2 => exact ⟨d, ds2, rfl⟩
  have hd : d ≠ '-' := isDigit_ne_minus (hds d (List.mem_cons_self _ _))
  constructor
  · have hneg : decide ((d :: ds2 ++ rest).head? = some '-') = false := by
      simp [hd]
    unfold from_chars_int32
    simp only [hneg, Bool.false_eq_true, if_false, htw, digitsValue_zero]
    simp only [List.cons_ne_nil, if_false]
    split <;> split <;> first | rfl | omega
  · have hneg : decide (('-' :: (d :: ds2 ++ rest)).head? = some '-') = true := by
      simp
    unfold from_chars_int32
    simp only [hneg, if_true, List.drop_one, List.tail_cons, htw, digitsValue_zero]
    simp only [List.cons_ne_nil, if_false]
    split <;> split <;> first | rfl | omega


/-- C14, as amended. `Reader::parseInt(sv)` returns the default 0 when `sv` is
empty or starts with a byte that is neither a digit nor `-`; when it starts with
`-` and no digit follows; and when its leading optionally `-`-signed run of
decimal digits denotes an integer outside the `int32_t` range.  When that number
is in range it is returned, whatever bytes follow the run. -/
theorem parseInt_default :
    (∀ sv : List Char, (∀ c, sv.head? = some c → isDigit c = false ∧ c ≠ '-') →
      parseInt sv = 0) ∧
    (∀ rest : List Char, (∀ c, rest.head? = some c → isDigit c = false) →
      parseInt ('-' :: rest) = 0) ∧
    (∀ ds rest : List Char, ds ≠ [] → (∀ c ∈ ds, isDigit c = true) →
      (∀ c, rest.head? = some c → isDigit c = false) →
      (2147483647 < decimalValue ds → parseInt (ds ++ rest) = 0) ∧
      (2147483648 < decimalValue ds → parseInt ('-' :: (ds ++ rest)) = 0) ∧
      (decimalValue ds ≤ 2147483647 → parseInt (ds ++ rest) = decimalValue ds) ∧
      (decimalValue ds ≤ 2147483648 → parseInt ('-' :: (ds ++ rest)) = -(decimalValue ds : Int))) := by
  refine ⟨?_, ?_, ?_⟩
  · intro sv h
    cases sv with
    | nil => rfl
    | cons c cs =>
      obtain ⟨hd, hm⟩ := h c rfl
      simp [parseInt, from_chars_int32, hm, List.takeWhile_cons, hd]
  · intro rest h
    cases rest with
    | nil => rfl
    | cons c cs =>
      have hd := h c rfl
      simp [parseInt, from_chars_int32, List.takeWhile_cons, hd]
  · intro ds rest hne hds hrest
    obtain ⟨h1, h2⟩ := from_chars_int32_digits ds rest hne hds hrest
    refine ⟨?_, ?_, ?_, ?_⟩
    · intro h; rw [parseInt, h1, if_neg (by omega)]; rfl
    · intro h; rw [parseInt, h2, if_neg (by omega)]; rfl
    · intro h; rw [parseInt, h1, if_pos h]; rfl
    · intro h; rw [parseInt, h2, if_pos h]; rfl

theorem parseInt_default_witness :
    parseInt [] = 0 ∧ parseInt "abc".toList = 0 ∧ parseInt "-".toList = 0 ∧
    parseInt "-x1".toList = 0 ∧
    parseInt "2147483648".toList = 0 ∧ parseInt "-2147483649,".toList = 0 ∧
    parseInt "2147483647".toList = 2147483647 ∧ parseInt "-2147483648".toList = -2147483648 :=
  ⟨parseInt_default.1 [] (fun c h => by cases h),
    parseInt_default.1 "abc".toList (fun c h => by cases h; decide),
    parseInt_default.2.1 [] (fun c h => by cases h),
    parseInt_default.2.1 "x1".toList (fun c h => by cases h; decide),
    (parseInt_default.2.2 "2147483648".toList [] (by decide) (by decide)
      (fun c h => by cases h)).1 (by decide),
    (parseInt_default.2.2 "2147483649".toList [','] (by decide) (by decide)
      (fun c h => by cases h; decide)).2.1 (by decide),
    (parseInt_default.2.2 "2147483647".toList [] (by decide) (by decide)
      (fun c h => by cases h)).2.2.1 (by decide),
    (parseInt_default.2.2 "2147483648".toList [] (by decide) (by decide)
      (fun c h => by cases h)).2.2.2 (by decide)⟩

/-- C14 as stated fails: `"12abc"` is not wholly a run of digits, and
`Reader::parseInt` returns 12 for it, and -7 for `"-7.5"`. -/
theorem parseInt_numeric_prefix :
    parseInt "12abc".toList = 12 ∧ parseInt "-7.5".toList = -7 ∧
    ("12abc".toList.all isDigit = false) := by
  decide

/-! ## Lines with too few columns -/

theorem bind_ok_inv {ε α β : Type} {x : Except ε α} {f : α → Except ε β} {r : β}
    (h : (x >>= f) = .ok r) : ∃ a, x = .ok a ∧ f a = .ok r := by
  cases x with
  | error e => cases h
  | ok a => exact ⟨a, rfl, h⟩

theorem columns_length_pos (l : List Char) : 1 ≤ (columns l).length := by
  rw [columns_unfold]; simp

theorem columns_length_advance {D : Type} {record : TripRecord D} {l t : List Char}
    (h : advance record l = .ok t) : (columns l).length = (columns t).length + 1 := by
  unfold advance at h
  split at h
  · rename_i next hn
    cases h
    rw [columns_unfold l, hn]
    rfl
  · cases h

theorem columns_length_skipFields {D : Type} {record : TripRecord D} (n : Nat) :
    ∀ {l t : List Char}, skipFields record n l = .ok t →
      (columns l).length = (columns t).length + n := by
  induction n with
  | zero => intro l t h; cases h; rfl
  | succ n ih =>
    intro l t h
    unfold skipFields at h
    split at h
    · rename_i next hn
      have h1 := columns_length_advance hn
      have h2 := ih h
      omega
    · cases h

/-- A call of `parseLine` that returns has walked over 19 separators. -/
theorem parseLine_ok_length {D : Type} [DoubleOps D] {line : List Char} {r : TripRecord D}
    (h : parseLine D line = .ok r) : 20 ≤ (columns line).length := by
  simp only [parseLine] at h
  obtain ⟨t1, h1, h⟩ := bind_ok_inv h
  obtain ⟨t6, h6, h⟩ := bind_ok_inv h
  obtain ⟨t7, h7, h⟩ := bind_ok_inv h
  obtain ⟨t10, h10, h⟩ := bind_ok_inv h
  obtain ⟨t11, h11, h⟩ := bind_ok_inv h
  obtain ⟨t16, h16, h⟩ := bind_ok_inv h
  obtain ⟨t17, h17, h⟩ := bind_ok_inv h
  obtain ⟨t18, h18, h⟩ := bind_ok_inv h
  obtain ⟨t19, h19, h⟩ := bind_ok_inv h
  have l1 := columns_length_advance h1
  have l6 := columns_length_skipFields 5 h6
  have l7 := columns_length_advance h7
  have l10 := columns_length_skipFields 3 h10
  have l11 := columns_length_advance h11
  have l16 := columns_length_skipFields 5 h16
  have l17 := columns_length_advance h17
  have l18 := columns_length_advance h18
  have l19 := columns_length_advance h19
  have := columns_length_pos t19
  omega

/-- On a line with fewer than 20 columns the cursor of `parseLine` leaves the string. -/
theorem parseLine_short {D : Type} [DoubleOps D] (line : List Char)
    (h : (columns line).length < 20) : returned (parseLine D line) = none := by
  cases hp : parseLine D line with
  | error r => rfl
  | ok r =>
    have := parseLine_ok_length hp
    omega

/-- C15. On the empty line and on a line without a comma the cursor of
`Reader::parseLine` is moved to `end + 1` and the next `std::find` starts
there: the call does not return a record; the same holds for a line of 19
columns. -/
theorem parseLine_short_lines_undefined :
    returned (parseLine Fixed []) = none ∧
    returned (parseLine Fixed "abc".toList) = none ∧
    nextField "abc".toList = none ∧
    returned (parseLine Fixed "1,,,,,,1,,,,2024-01-15,,,,,,2,,".toList) = none := by
  decide

/-! ## The merge of the per-worker date maps -/

theorem lane0_set1 {α : Type} (n : Nat) (x dflt : α) : lane0 (set1 (n + 1) x) dflt = x := rfl

/-- Folding a list of entries into a map, seen at one key. -/
theorem DateMap.find_foldl_mergeWith {D : Type} [DoubleOps D] (es : List (List Char × DailyStats D)) :
    ∀ (m : DateMap D), DateMap.Sorted m →
      DateMap.Sorted (es.foldl
        (fun final entry => DateMap.modify entry.1 (fun fs => fs.mergeWith entry.2) final) m) ∧
      ∀ d, DateMap.find (es.foldl
        (fun final entry => DateMap.modify entry.1 (fun fs => fs.mergeWith entry.2) final) m) d =
        (es.filter (fun e => decide (e.1 = d))).foldl
          (fun acc e => some ((acc.getD (DailyStats.zero D)).mergeWith e.2))
          (DateMap.find m d) := by
  induction es with
  | nil => intro m hm; exact ⟨hm, fun d => rfl⟩
  | cons e rest ih =>
    intro m hm
    have hm2 := DateMap.sorted_modify e.1 (fun fs => fs.mergeWith e.2) m hm
    obtain ⟨hs, hf⟩ := ih _ hm2
    refine ⟨hs, fun d => ?_⟩
    rw [List.foldl_cons, hf d, DateMap.find_modify _ _ _ hm]
    by_cases hd : e.1 = d
    · subst hd
      simp [List.filter_cons]
    · have hd2 : ¬ d = e.1 := fun h => hd h.symm
      simp [List.filter_cons, hd, hd2]

/-- A sorted map has at most one entry for a key, the one `find` returns. -/
theorem DateMap.filter_key_eq {D : Type} (m : DateMap D) (hm : DateMap.Sorted m) (d : List Char) :
    m.filter (fun e => decide (e.1 = d)) =
      match DateMap.find m d with
      | none => []
      | some v => [(d, v)] := by
  induction m with
  | nil => rfl
  | cons e rest ih =>
    obtain ⟨k, v⟩ := e
    have hs2 : DateMap.Sorted rest := (List.pairwise_cons.1 hm).2
    have hhead := (List.pairwise_cons.1 hm).1
    by_cases hk : k = d
    · subst hk
      have hnone : rest.filter (fun e => decide (e.1 = k)) = [] := by
        rw [List.filter_eq_nil_iff]
        intro e he
        have h1 : strLt k e.1 = true := hhead e he
        intro heq
        rw [decide_eq_true_eq] at heq
        rw [heq, strLt_irrefl] at h1
        cases h1
      simp [List.filter_cons, DateMap.find, hnone]
    · simp only [List.filter_cons, hk, decide_False, Bool.false_eq_true, if_false, DateMap.find]
      exact ih hs2

/-- Merging one worker's map into the final map, seen at one key. -/
theorem DateMap.find_merge_worker {D : Type} [DoubleOps D] (w m : DateMap D)
    (hw : DateMap.Sorted w) (hm : DateMap.Sorted m) :
    DateMap.Sorted (w.foldl
      (fun final entry => DateMap.modify entry.1 (fun fs => fs.mergeWith entry.2) final) m) ∧
    ∀ d, DateMap.find (w.foldl
      (fun final entry => DateMap.modify entry.1 (fun fs => fs.mergeWith entry.2) final) m) d =
      match DateMap.find w d with
      | none => DateMap.find m d
      | some v => some (((DateMap.find m d).getD (DailyStats.zero D)).mergeWith v) := by
  obtain ⟨hs, hf⟩ := DateMap.find_foldl_mergeWith w m hm
  refine ⟨hs, fun d => ?_⟩
  rw [hf d, DateMap.filter_key_eq w hw d]
  cases DateMap.find w d <;> rfl

theorem query4Merge_append {D : Type} [DoubleOps D] (ws : List (DateMap D)) (w : DateMap D) :
    query4Merge (ws ++ [w]) = w.foldl
      (fun final entry => DateMap.modify entry.1 (fun fs => fs.mergeWith entry.2) final)
      (query4Merge ws) := by
  simp [query4Merge, List.foldl_append]

theorem wrapInt32_add_wrapInt32 (a b : Int) : wrapInt32 (wrapInt32 a + b) = wrapInt32 (a + b) := by
  unfold wrapInt32
  omega

theorem wrapSizeT_add_mod (a b : Nat) : wrapSizeT (a % 2 ^ 64 + b) = (a + b) % 2 ^ 64 := by
  unfold wrapSizeT
  omega

/-- The merged map of query4, key by key, against the workers' maps. -/
theorem query4Merge_at {D : Type} [DoubleOps D] (ws : List (DateMap D))
    (hws : ∀ w ∈ ws, DateMap.Sorted w) :
    DateMap.Sorted (query4Merge ws) ∧
    ∀ d, ((DateMap.find (query4Merge ws) d).isSome = true ↔
        ∃ w ∈ ws, (DateMap.find w d).isSome = true) ∧
      DateMap.countAt (query4Merge ws) d = workerCountSum ws d % 2 ^ 64 ∧
      DateMap.passengersAt (query4Merge ws) d = wrapInt32 (workerPassengerSum ws d) := by
  induction ws using List.reverseRecOn with
  | nil =>
    refine ⟨List.Pairwise.nil, fun d => ⟨?_, ?_, ?_⟩⟩
    · simp [query4Merge, DateMap.find]
    · simp [query4Merge, DateMap.countAt, DateMap.find, workerCountSum]
    · simp [query4Merge, DateMap.passengersAt, DateMap.find, workerPassengerSum, wrapInt32]
  | append_singleton ws w ih =>
    have hw : DateMap.Sorted w := hws w (by simp)
    obtain ⟨hsorted, hat⟩ := ih (fun x hx => hws x (by simp [hx]))
    obtain ⟨hs2, hf⟩ := DateMap.find_merge_worker w (query4Merge ws) hw hsorted
    rw [query4Merge_append]
    refine ⟨hs2, fun d => ?_⟩
    obtain ⟨hsome, hcount, hpass⟩ := hat d
    have hcs : workerCountSum (ws ++ [w]) d = workerCountSum ws d + DateMap.countAt w d := by
      simp [workerCountSum]
    have hps : workerPassengerSum (ws ++ [w]) d =
        workerPassengerSum ws d + DateMap.passengersAt w d := by
      simp [workerPassengerSum]
    rw [hcs, hps]
    simp only [DateMap.countAt, DateMap.passengersAt] at hcount hpass ⊢
    rw [hf d]
    cases hwd : DateMap.find w d with
    | none =>
      refine ⟨?_, ?_, ?_⟩
      · rw [hsome]
        constructor
        · rintro ⟨x, hx, hxs⟩; exact ⟨x, by simp [hx], hxs⟩
        · rintro ⟨x, hx, hxs⟩
          rcases List.mem_append.1 hx with h | h
          · exact ⟨x, h, hxs⟩
          · rw [List.mem_singleton] at h; subst h; rw [hwd] at hxs; cases hxs
      · simpa using hcount
      · simpa using hpass
    | some v =>
      refine ⟨?_, ?_, ?_⟩
      · simp only [Option.isSome_some, true_iff]
        exact ⟨w, by simp, by rw [hwd]; rfl⟩
      · cases hm : DateMap.find (query4Merge ws) d with
        | none =>
          rw [hm] at hcount
          simp only [Option.map_none', Option.getD_none] at hcount
          simp only [Option.getD_none, Option.map_some', Option.getD_some, DailyStats.mergeWith,
            DailyStats.zero, lane0_set1]
          unfold wrapSizeT
          omega
        | some s =>
          rw [hm] at hcount
          simp only [Option.map_some', Option.getD_some] at hcount
          simp only [Option.map_some', Option.getD_some, DailyStats.mergeWith, lane0_set1]
          unfold wrapSizeT
          omega
      · cases hm : DateMap.find (query4Merge ws) d with
        | none =>
          rw [hm] at hpass
          simp only [Option.map_none', Option.getD_none] at hpass
          simp only [Option.getD_none, Option.map_some', Option.getD_some, DailyStats.mergeWith,
            DailyStats.zero, lane0_set1]
          unfold wrapInt32 at hpass ⊢
          omega
        | some s =>
          rw [hm] at hpass
          simp only [Option.map_some', Option.getD_some] at hpass
          simp only [Option.map_some', Option.getD_some, DailyStats.mergeWith, lane0_set1]
          unfold wrapInt32 at hpass ⊢
          omega

theorem wrapInt32_spec (x : Int) :
    -2 ^ 31 ≤ wrapInt32 x ∧ wrapInt32 x < 2 ^ 31 ∧ (wrapInt32 x - x) % 2 ^ 32 = 0 := by
  unfold wrapInt32
  omega

/-- C16. For every list of per-worker date maps (each a `std::map`, its keys in
ascending order), the map merged by query4 contains a key `d` if and only if a
worker map contains `d`; at such a key its `count` is the sum of the workers'
counts at `d` (in `size_t`: the sum itself when that is below `2^64`) and its
`passenger_sum` is the sum of the workers' `passenger_sum` at `d` modulo `2^32`
(as an `int32_t`). -/
theorem query4Merge_spec (D : Type) [DoubleOps D] (threadStats : List (DateMap D))
    (hws : ∀ w ∈ threadStats, DateMap.Sorted w) (d : List Char) :
    ((DateMap.find (query4Merge threadStats) d).isSome = true ↔
      ∃ w ∈ threadStats, (DateMap.find w d).isSome = true) ∧
    (∀ s, DateMap.find (query4Merge threadStats) d = some s →
      s.count = workerCountSum threadStats d % 2 ^ 64 ∧
      (workerCountSum threadStats d < 2 ^ 64 → s.count = workerCountSum threadStats d) ∧
      s.passenger_sum = wrapInt32 (workerPassengerSum threadStats d) ∧
      (s.passenger_sum - workerPassengerSum threadStats d) % 2 ^ 32 = 0 ∧
      -2 ^ 31 ≤ s.passenger_sum ∧ s.passenger_sum < 2 ^ 31) := by
  obtain ⟨_, hat⟩ := query4Merge_at threadStats hws
  obtain ⟨hsome, hcount, hpass⟩ := hat d
  refine ⟨hsome, fun s hs => ?_⟩
  simp only [DateMap.countAt, DateMap.passengersAt, hs, Option.map_some', Option.getD_some]
    at hcount hpass
  obtain ⟨h1, h2, h3⟩ := wrapInt32_spec (workerPassengerSum threadStats d)
  refine ⟨hcount, fun hlt => ?_, hpass, ?_, ?_, ?_⟩
  · rw [hcount]; exact Nat.mod_eq_of_lt hlt
  · rw [hpass]; exact h3
  · rw [hpass]; exact h1
  · rw [hpass]; exact h2

theorem workerMaps_sorted : ∀ w ∈ [workerMapA, workerMapB], DateMap.Sorted w := by
  unfold DateMap.Sorted
  decide

theorem query4Merge_spec_witness :
    (∀ w ∈ [workerMapA, workerMapB], DateMap.Sorted w) ∧
    (∃ s, DateMap.find (query4Merge [workerMapA, workerMapB]) "2024-01-15".toList = some s ∧
      s.count = 7 ∧ s.passenger_sum = -1) ∧
    (DateMap.find (query4Merge [workerMapA, workerMapB]) "2024-01-17".toList).isSome = false := by
  have h := query4Merge_spec Fixed [workerMapA, workerMapB] workerMaps_sorted "2024-01-15".toList
  have h2 := query4Merge_spec Fixed [workerMapA, workerMapB] workerMaps_sorted "2024-01-17".toList
  refine ⟨workerMaps_sorted, ?_, ?_⟩
  · have hsome := h.1.2 ⟨workerMapA, by simp, by decide⟩
    obtain ⟨s, hs⟩ := Option.isSome_iff_exists.1 hsome
    obtain ⟨_, hc, hp, _⟩ := h.2 s hs
    exact ⟨s, hs, (hc (by decide)).trans (by decide), hp.trans (by decide)⟩
  · cases hf : (DateMap.find (query4Merge [workerMapA, workerMapB]) "2024-01-17".toList).isSome with
    | false => rfl
    | true =>
      obtain ⟨w, hw, hws⟩ := h2.1.1 hf
      revert w
      decide

theorem workerCountSum_perm {D : Type} {ws ws2 : List (DateMap D)} (h : ws.Perm ws2)
    (d : List Char) : workerCountSum ws d = workerCountSum ws2 d :=
  (h.map _).sum_eq

theorem workerPassengerSum_perm {D : Type} {ws ws2 : List (DateMap D)} (h : ws.Perm ws2)
    (d : List Char) : workerPassengerSum ws d = workerPassengerSum ws2 d :=
  (h.map _).sum_eq

/-- C17. For every list of per-worker date maps (each with its keys in ascending
order) and every permutation of the list, the query4 merge loop gives the same
key set and, at every key, the same `count` and the same `passenger_sum`. -/
theorem query4Merge_perm (D : Type) [DoubleOps D] (threadStats permuted : List (DateMap D))
    (hperm : threadStats.Perm permuted) (hws : ∀ w ∈ threadStats, DateMap.Sorted w)
    (d : List Char) :
    (DateMap.find (query4Merge permuted) d).isSome =
      (DateMap.find (query4Merge threadStats) d).isSome ∧
    (DateMap.find (query4Merge permuted) d).map (fun s => (s.count, s.passenger_sum)) =
      (DateMap.find (query4Merge threadStats) d).map (fun s => (s.count, s.passenger_sum)) := by
  have hws2 : ∀ w ∈ permuted, DateMap.Sorted w := fun w hw => hws w (hperm.mem_iff.2 hw)
  obtain ⟨hsome, hcount, hpass⟩ := (query4Merge_at threadStats hws).2 d
  obtain ⟨hsome2, hcount2, hpass2⟩ := (query4Merge_at permuted hws2).2 d
  rw [← workerCountSum_perm hperm d, ← hcount] at hcount2
  rw [← workerPassengerSum_perm hperm d, ← hpass] at hpass2
  have hiff : (DateMap.find (query4Merge permuted) d).isSome = true ↔
      (DateMap.find (query4Merge threadStats) d).isSome = true := by
    rw [hsome, hsome2]
    constructor
    · rintro ⟨w, hw, h⟩; exact ⟨w, hperm.mem_iff.2 hw, h⟩
    · rintro ⟨w, hw, h⟩; exact ⟨w, hperm.mem_iff.1 hw, h⟩
  simp only [DateMap.countAt, DateMap.passengersAt] at hcount2 hpass2
  cases h1 : DateMap.find (query4Merge permuted) d with
  | none =>
    cases h2 : DateMap.find (query4Merge threadStats) d with
    | none => exact ⟨rfl, rfl⟩
    | some s => rw [h1, h2] at hiff; simp at hiff
  | some s1 =>
    cases h2 : DateMap.find (query4Merge threadStats) d with
    | none => rw [h1, h2] at hiff; simp at hiff
    | some s2 =>
      rw [h1, h2] at hcount2 hpass2
      simp only [Option.map_some', Option.getD_some] at hcount2 hpass2
      simp [hcount2, hpass2]

theorem query4Merge_perm_witness :
    [workerMapA, workerMapB].Perm [workerMapB, workerMapA] ∧
    (DateMap.find (query4Merge [workerMapB, workerMapA]) "2024-01-15".toList).map
        (fun s => (s.count, s.passenger_sum)) =
      (DateMap.find (query4Merge [workerMapA, workerMapB]) "2024-01-15".toList).map
        (fun s => (s.count, s.passenger_sum)) ∧
    (DateMap.find (query4Merge [workerMapA, workerMapB]) "2024-01-15".toList).map
        (fun s => (s.count, s.passenger_sum)) = some (7, -1) :=
  ⟨List.Perm.swap _ _ _,
    (query4Merge_perm Fixed [workerMapA, workerMapB] [workerMapB, workerMapA]
      (List.Perm.swap _ _ _) workerMaps_sorted "2024-01-15".toList).2,
    by decide⟩

/-! ## The January-2024 predicate -/

theorem char_toNat_sub_ne_zero {a b : Char} (h : a ≠ b) : (a.toNat : Int) - (b.toNat : Int) ≠ 0 := by
  intro h0
  apply h
  have h1 : a.toNat = b.toNat := by omega
  rw [← Char.ofNat_toNat a, ← Char.ofNat_toNat b, h1]

theorem strncmp_zero (s1 s2 : List Char) : strncmp 0 s1 s2 = 0 := rfl

theorem strncmp_cons (n : Nat) (a b : Char) (as bs : List Char) :
    strncmp (n + 1) (a :: as) (b :: bs) = 0 ↔ a = b ∧ (a = NUL ∨ strncmp n as bs = 0) := by
  have hunfold : strncmp (n + 1) (a :: as) (b :: bs) =
      if a ≠ b then (a.toNat : Int) - (b.toNat : Int)
      else if a = NUL then 0 else strncmp n as bs := rfl
  rw [hunfold]
  by_cases hab : a = b
  · subst hab
    by_cases hn : a = NUL
    · simp [hn]
    · simp [hn]
  · simp only [ne_eq, hab, not_false_eq_true, if_true, false_and, iff_false]
    exact char_toNat_sub_ne_zero hab

theorem january_bytes_not_nul :
    '2' ≠ NUL ∧ '0' ≠ NUL ∧ '4' ≠ NUL ∧ '-' ≠ NUL ∧ '1' ≠ NUL := by decide

/-- The scalar predicate decides on the first 7 bytes of the date buffer. -/
theorem strncmp_january_iff (date : List Char) (h : 7 ≤ date.length) :
    strncmp 7 date ("2024-01".toList ++ [NUL]) = 0 ↔ date.take 7 = "2024-01".toList := by
  obtain ⟨n2, n0, n4, nm, n1⟩ := january_bytes_not_nul
  match date, h with
  | d0 :: d1 :: d2 :: d3 :: d4 :: d5 :: d6 :: rest, _ =>
    rw [target_bytes]
    simp only [List.cons_append, List.nil_append, strncmp_cons, strncmp_zero, or_true, and_true,
      List.take_succ_cons, List.take_zero, List.cons.injEq]
    constructor
    · rintro ⟨h0, _ | ⟨h1, _ | ⟨h2, _ | ⟨h3, _ | ⟨h4, _ | ⟨h5, _ | h6⟩⟩⟩⟩⟩⟩
      all_goals first
        | exact ⟨h0, h1, h2, h3, h4, h5, h6⟩
        | (subst_vars; contradiction)
    · rintro ⟨h0, h1, h2, h3, h4, h5, h6⟩
      exact ⟨h0, Or.inr ⟨h1, Or.inr ⟨h2, Or.inr ⟨h3, Or.inr ⟨h4, Or.inr ⟨h5, Or.inr h6⟩⟩⟩⟩⟩⟩

/-- C18. For every record with its 11-byte date buffer,
`TripRecord::isInJanuary2024` is true if and only if the first 7 bytes of the
buffer are `2024-01`: true for `2024-01-15`, false for `2024-02-01` and for
`2023-01-15`. -/
theorem isInJanuary2024_iff (D : Type) (record : TripRecord D) (h : record.date.length = 11) :
    (record.isInJanuary2024 = true ↔ record.date.take 7 = "2024-01".toList) ∧
    (record.date = "2024-01-15".toList ++ [NUL] → record.isInJanuary2024 = true) ∧
    (record.date = "2024-02-01".toList ++ [NUL] → record.isInJanuary2024 = false) ∧
    (record.date = "2023-01-15".toList ++ [NUL] → record.isInJanuary2024 = false) := by
  have hiff : record.isInJanuary2024 = true ↔ record.date.take 7 = "2024-01".toList := by
    unfold TripRecord.isInJanuary2024
    rw [decide_eq_true_eq]
    exact strncmp_january_iff record.date (by omega)
  refine ⟨hiff, fun hd => hiff.2 (by rw [hd]; decide), fun hd => ?_, fun hd => ?_⟩
  · rw [← Bool.not_eq_true, hiff, hd]; decide
  · rw [← Bool.not_eq_true, hiff, hd]; decide

theorem isInJanuary2024_iff_witness :
    tripSixMiles.date.length = 11 ∧
    tripSixMiles.isInJanuary2024 = true ∧ tripFebruary.isInJanuary2024 = false ∧
    trip2023.isInJanuary2024 = false :=
  ⟨by decide,
    (isInJanuary2024_iff Fixed tripSixMiles (by decide)).2.1 (by decide),
    (isInJanuary2024_iff Fixed tripFebruary (by decide)).2.2.1 (by decide),
    (isInJanuary2024_iff Fixed trip2023 (by decide)).2.2.2 (by decide)⟩

/-! ## A date column shorter than the prefix -/

theorem strncpy_length (n : Nat) : ∀ s : List Char, (strncpy n s).length = n := by
  induction n with
  | zero => intro s; simp [strncpy]
  | succ n ih =>
    intro s
    cases s with
    | nil => simp [strncpy, ih]
    | cons c cs =>
      simp only [strncpy]
      split <;> simp [ih]

/-- The leading bytes of a `strncpy` copy that hold no NUL are the leading bytes
of the source. -/
theorem strncpy_take_no_nul (m : Nat) :
    ∀ (n : Nat) (s t : List Char), m ≤ n → (strncpy n s).take m = t → NUL ∉ t →
      s.take m = t := by
  induction m with
  | zero => intro n s t _ h _; simpa using h
  | succ m ih =>
    intro n s t hmn h hnul
    obtain ⟨n2, rfl⟩ : ∃ n2, n = n2 + 1 := ⟨n - 1, by omega⟩
    cases s with
    | nil =>
      simp only [strncpy, List.take_succ_cons] at h
      exact absurd (by rw [← h]; simp) hnul
    | cons c cs =>
      simp only [strncpy] at h
      split at h
      · simp only [List.take_succ_cons] at h
        exact absurd (by rw [← h]; simp) hnul
      · simp only [List.take_succ_cons] at h
        subst h
        rw [List.take_succ_cons]
        congr 1
        exact ih n2 cs _ (by omega) rfl (fun hmem => hnul (List.mem_cons_of_mem _ hmem))

theorem intercalate_cons_cons (a b : List Char) (l : List (List Char)) :
    List.intercalate [COMMA] (a :: b :: l) = a ++ COMMA :: List.intercalate [COMMA] (b :: l) := by
  simp [List.intercalate]

theorem fromColumn_eq_column_comma (line : List Char) (k : Nat)
    (h : k + 1 < (columns line).length) :
    fromColumn line k = column line k ++ COMMA :: fromColumn line (k + 1) := by
  have hd : (columns line).drop k = (columns line)[k] :: (columns line).drop (k + 1) :=
    List.drop_eq_getElem_cons (by omega)
  have hd2 : (columns line).drop (k + 1) =
      (columns line)[k + 1] :: (columns line).drop (k + 1 + 1) :=
    List.drop_eq_getElem_cons h
  have e1 : fromColumn line k =
      List.intercalate [COMMA] ((columns line)[k] :: (columns line).drop (k + 1)) := by
    unfold fromColumn; rw [← hd]
  have e2 : column line k = (columns line)[k] := by
    unfold column
    rw [List.getD_eq_getElem?_getD, List.getElem?_eq_getElem (by omega), Option.getD_some]
  rw [e1, e2]
  unfold fromColumn
  rw [hd2]
  exact intercalate_cons_cons _ _ _

theorem january_bytes_no_comma_no_nul :
    COMMA ∉ "2024-01".toList ∧ NUL ∉ "2024-01".toList := by decide

/-- The copy taken from a column of fewer than 7 bytes that is followed by a
separator does not start with `2024-01`. -/
theorem strncpy_short_column (col rest : List Char) (h : col.length < 7) :
    (strncpy 10 (col ++ COMMA :: rest)).take 7 ≠ "2024-01".toList := by
  intro heq
  have hsrc := strncpy_take_no_nul 7 10 _ _ (by omega) heq january_bytes_no_comma_no_nul.2
  apply january_bytes_no_comma_no_nul.1
  rw [← hsrc, List.take_append_eq_append_take]
  obtain ⟨j, hj⟩ : ∃ j, 7 - col.length = j + 1 := ⟨7 - col.length - 1, by omega⟩
  rw [hj, List.take_succ_cons]
  simp

/-- C19. For every line with at least 20 commas whose column 10, the column
`Reader::parseLine` copies the date from, holds fewer than 7 bytes, the parsed
record fails the January-2024 test, scalar (`isInJanuary2024`) and vectorised
(`isJanuary2024SIMD`), whatever the rest of the line holds. -/
theorem short_date_never_matches (D : Type) [DoubleOps D] (mem : SimdTail) (line : List Char)
    (h : 21 ≤ (columns line).length) (hshort : (column line 10).length < 7) :
    ∃ r, parseLine D line = .ok r ∧ r.isInJanuary2024 = false ∧
      isJanuary2024SIMD mem r.date = false := by
  have hr := parseLine_of_twenty D line (by omega)
  refine ⟨_, hr, ?_, ?_⟩
  all_goals
    have hlen : (strncpy 10 (fromColumn line 10) ++ [NUL]).length = 11 := by
      simp [strncpy_length]
    have hne : (strncpy 10 (fromColumn line 10) ++ [NUL]).take 7 ≠ "2024-01".toList := by
      rw [List.take_append_of_le_length (by rw [strncpy_length]; omega),
        fromColumn_eq_column_comma line 10 (by omega)]
      exact strncpy_short_column _ _ hshort
  · rw [← Bool.not_eq_true]
    intro hj
    unfold TripRecord.isInJanuary2024 at hj
    rw [decide_eq_true_eq] at hj
    exact hne ((strncmp_january_iff _ (by omega)).1 hj)
  · rw [← Bool.not_eq_true]
    intro hj
    exact hne ((isJanuary2024SIMD_iff mem _ (by omega)).1 hj)

theorem short_date_never_matches_witness :
    21 ≤ (columns tripSplitDate).length ∧ (column tripSplitDate 10).length < 7 ∧
    ∃ r, parseLine Fixed tripSplitDate = .ok r ∧ r.isInJanuary2024 = false ∧
      isJanuary2024SIMD ⟨[], []⟩ r.date = false :=
  ⟨by decide, by decide,
    short_date_never_matches Fixed ⟨[], []⟩ tripSplitDate (by decide) (by decide)⟩

/-! ## Monotonicity of `passenger_sum` -/

theorem wrapInt32_of_range {x : Int} (h1 : -2 ^ 31 ≤ x) (h2 : x < 2 ^ 31) : wrapInt32 x = x := by
  unfold wrapInt32
  omega

/-- C20, as amended. For every record whose `passenger_count` is not negative
(in particular every such record produced by `Reader::parseLine`) and every
accumulator state, as long as the `int32_t` addition the step performs at the
record's key does not overflow, the vendor and date fold steps leave
`passenger_sum` at every key of the accumulator greater than or equal to its
value before the step, and a key the date step creates gets a `passenger_sum`
that is not negative.  Nothing is asked of the entries at the other keys. -/
theorem passenger_sum_monotone (D : Type) [DoubleOps D] (mem : SimdTail) (record : TripRecord D)
    (hpc : 0 ≤ record.passenger_count) :
    (∀ (localStats : List VendorStats),
      (∀ (index : Nat) (stats : VendorStats), query3Key mem record = some index →
        localStats[index]? = some stats →
        -2 ^ 31 ≤ stats.passenger_sum + record.passenger_count ∧
          stats.passenger_sum + record.passenger_count < 2 ^ 31) →
      ∀ (j : Nat) (old : VendorStats), localStats[j]? = some old →
        ∃ new, (query3Step mem localStats record)[j]? = some new ∧
          old.passenger_sum ≤ new.passenger_sum) ∧
    (∀ (localStats : DateMap D), DateMap.Sorted localStats →
      (isJanuary2024SIMD mem record.date = true →
        -2 ^ 31 ≤ DateMap.passengersAt localStats (record.date.take 10) +
            record.passenger_count ∧
          DateMap.passengersAt localStats (record.date.take 10) +
            record.passenger_count < 2 ^ 31) →
      (∀ (d : List Char) (old : DailyStats D), DateMap.find localStats d = some old →
        ∃ new, DateMap.find (query4Step mem localStats record) d = some new ∧
          old.passenger_sum ≤ new.passenger_sum) ∧
      (∀ (d : List Char) (new : DailyStats D), DateMap.find localStats d = none →
        DateMap.find (query4Step mem localStats record) d = some new →
        0 ≤ new.passenger_sum)) := by
  refine ⟨?_, ?_⟩
  · intro localStats hno j old hj
    unfold query3Step
    cases hk : query3Key mem record with
    | none => exact ⟨old, hj, Int.le_refl _⟩
    | some index =>
      simp only [modifyAt_getElem?, hj, Option.map_some']
      by_cases hji : j = index
      · rw [if_pos hji]
        refine ⟨_, rfl, ?_⟩
        have hr := hno j old (hk.trans (by rw [hji])) hj
        simp only []
        rw [wrapInt32_of_range hr.1 hr.2]
        omega
      · rw [if_neg hji]
        exact ⟨old, rfl, Int.le_refl _⟩
  · intro localStats hs hno
    refine ⟨?_, ?_⟩
    · intro d old hd
      unfold query4Step
      split
      · rename_i hjan
        have hr := hno hjan
        rw [DateMap.find_modify _ _ _ hs]
        by_cases hdk : d = record.date.take 10
        · rw [if_pos hdk, ← hdk, hd]
          rw [← hdk] at hr
          simp only [DateMap.passengersAt, hd, Option.map_some', Option.getD_some] at hr
          refine ⟨_, rfl, ?_⟩
          simp only [Option.getD_some]
          rw [wrapInt32_of_range hr.1 hr.2]
          omega
        · rw [if_neg hdk]
          exact ⟨old, hd, Int.le_refl _⟩
      · exact ⟨old, hd, Int.le_refl _⟩
    · intro d new hd hnew
      unfold query4Step at hnew
      split at hnew
      · rename_i hjan
        have hr := hno hjan
        rw [DateMap.find_modify _ _ _ hs] at hnew
        by_cases hdk : d = record.date.take 10
        · rw [if_pos hdk, ← hdk, hd] at hnew
          rw [← hdk] at hr
          simp only [DateMap.passengersAt, hd, Option.map_none', Option.getD_none] at hr
          cases hnew
          simp only [Option.getD_none, DailyStats.zero]
          rw [wrapInt32_of_range (by omega) (by omega)]
          omega
        · rw [if_neg hdk, hd] at hnew
          cases hnew
      · rw [hd] at hnew
        cases hnew

set_option maxRecDepth 8192 in
theorem passenger_sum_monotone_witness :
    0 ≤ tripSixMiles.passenger_count ∧
    (query3Key ⟨[], []⟩ tripSixMiles = some 2 ∧
      vendorTwoAndFive[2]? = some ⟨3, 5⟩ ∧ vendorTwoAndFive[5]? = some ⟨9, 2147483647⟩ ∧
      (∃ new, (query3Step ⟨[], []⟩ vendorTwoAndFive tripSixMiles)[2]? = some new ∧
        (5 : Int) ≤ new.passenger_sum) ∧
      (∃ new, (query3Step ⟨[], []⟩ vendorTwoAndFive tripSixMiles)[5]? = some new ∧
        (2147483647 : Int) ≤ new.passenger_sum)) ∧
    (isJanuary2024SIMD ⟨[], []⟩ tripSixMiles.date = true ∧
      tripSixMiles.date.take 10 = "2024-01-15".toList ∧
      (∃ new, DateMap.find (query4Step ⟨[], []⟩ workerMapA tripSixMiles) "2024-01-15".toList =
        some new ∧ (3 : Int) ≤ new.passenger_sum) ∧
      (∃ new, DateMap.find (query4Step ⟨[], []⟩ workerMapA tripSixMiles) "2024-01-16".toList =
        some new ∧ (1 : Int) ≤ new.passenger_sum)) := by
  have hv := (passenger_sum_monotone Fixed ⟨[], []⟩ tripSixMiles (by decide)).1 vendorTwoAndFive
    (fun index stats hk hs => by
      have hk2 : query3Key ⟨[], []⟩ tripSixMiles = some 2 := by decide
      rw [hk2] at hk
      cases hk
      have hs2 : vendorTwoAndFive[2]? = some ⟨3, 5⟩ := by decide
      rw [hs2] at hs
      cases hs
      decide)
  have hd := ((passenger_sum_monotone Fixed ⟨[], []⟩ tripSixMiles (by decide)).2 workerMapA
    (workerMaps_sorted workerMapA (by simp)) (fun _ => by decide)).1
  exact ⟨by decide,
    ⟨by decide, by decide, by decide, hv 2 ⟨3, 5⟩ (by decide), hv 5 ⟨9, 2147483647⟩ (by decide)⟩,
    ⟨by decide, by decide,
      hd "2024-01-15".toList ⟨2, 3, ⟨12000⟩, ⟨20000⟩, ⟨4000⟩⟩ (by decide),
      hd "2024-01-16".toList ⟨1, 1, ⟨6000⟩, ⟨10000⟩, ⟨2000⟩⟩ (by decide)⟩⟩

set_option maxRecDepth 8192 in
/-- C20 as stated fails: `Reader::parseLine` turns a passenger column `-3` into
`passenger_count = -3`, and the vendor step then takes `passenger_sum` at vendor 1
from 0 to -3, the date step takes it at `2024-01-15` from 3 to 0; and adding one
passenger to a `passenger_sum` of `2147483647` wraps it to `-2147483648`. -/
theorem passenger_sum_decreases :
    ((returned (parseLine Fixed tripNegativePassengers)).map (fun r => r.passenger_count) =
        some (-3) ∧
      (List.replicate MAX_VENDOR_ID VendorStats.zero)[1]? = some ⟨0, 0⟩ ∧
      (returned (parseLine Fixed tripNegativePassengers)).map (fun r =>
        (query3Step ⟨[], []⟩ (List.replicate MAX_VENDOR_ID VendorStats.zero) r)[1]?) =
        some (some ⟨1, -3⟩) ∧
      DateMap.passengersAt workerMapA "2024-01-15".toList = 3 ∧
      (returned (parseLine Fixed tripNegativePassengers)).map (fun r =>
        DateMap.passengersAt (query4Step ⟨[], []⟩ workerMapA r) "2024-01-15".toList) =
        some 0) ∧
    (vendorTwoSaturated[2]? = some ⟨7, 2147483647⟩ ∧
      (query3Step ⟨[], []⟩ vendorTwoSaturated tripSixMiles)[2]? =
        some ⟨8, -2147483648⟩) := by
  decide

/-! ## The report of query2 -/

theorem map_fst_filterMap_ite {β : Type} (p : Nat → Bool) (g : Nat → β) (l : List Nat) :
    (l.filterMap (fun i => if p i = true then some (i, g i) else none)).map Prod.fst =
      l.filter p := by
  induction l with
  | nil => rfl
  | cons a as ih =>
    cases hp : p a
    · simp [List.filterMap_cons, List.filter_cons, hp, ih]
    · simp [List.filterMap_cons, List.filter_cons, hp, ih]

theorem query2Report_keys {D : Type} [DoubleOps D] (finalStats : List (PaymentStats D)) :
    (query2Report finalStats).map Prod.fst =
      (List.range' 1 6).filter
        (fun i => decide ((finalStats.getD i (PaymentStats.zero D)).count > 0)) := by
  unfold query2Report
  rw [← map_fst_filterMap_ite _ (fun i => finalStats.getD i (PaymentStats.zero D))]
  congr 1
  apply List.filterMap_congr
  intro i _
  simp

/-- C21. For every merged payment-type array (7 entries) the keys query2 reports
are in strictly ascending order and are exactly the keys `k` with `1 <= k <= 6`
whose merged `count` is greater than 0. -/
theorem query2Report_keys_spec (D : Type) [DoubleOps D] (finalStats : List (PaymentStats D))
    (hlen : finalStats.length = 7) :
    ((query2Report finalStats).map Prod.fst).Pairwise (fun a b => a < b) ∧
    ∀ k, k ∈ (query2Report finalStats).map Prod.fst ↔
      (1 ≤ k ∧ k ≤ 6) ∧ ∃ stats, finalStats[k]? = some stats ∧ 0 < stats.count := by
  rw [query2Report_keys]
  refine ⟨(List.pairwise_lt_range' 1 6).sublist (List.filter_sublist _), fun k => ?_⟩
  rw [List.mem_filter, List.mem_range'_1, decide_eq_true_eq]
  constructor
  · rintro ⟨⟨h1, h2⟩, hc⟩
    have hk : k < finalStats.length := by omega
    refine ⟨⟨h1, by omega⟩, finalStats[k], by simp [hk], ?_⟩
    simpa [List.getD_eq_getElem?_getD, hk] using hc
  · rintro ⟨⟨h1, h2⟩, stats, hs, hc⟩
    refine ⟨⟨h1, by omega⟩, ?_⟩
    simpa [List.getD_eq_getElem?_getD, hs] using hc

theorem query2Report_keys_spec_witness :
    paymentFinal.length = 7 ∧
    (query2Report paymentFinal).map Prod.fst = [2, 5] ∧
    ((query2Report paymentFinal).map Prod.fst).Pairwise (fun a b => a < b) ∧
    (2 ∈ (query2Report paymentFinal).map Prod.fst ↔
      (1 ≤ 2 ∧ 2 ≤ 6) ∧ ∃ stats, paymentFinal[2]? = some stats ∧ 0 < stats.count) :=
  ⟨by decide, by decide, (query2Report_keys_spec Fixed paymentFinal (by decide)).1,
    (query2Report_keys_spec Fixed paymentFinal (by decide)).2 2⟩

/-! ## `countNewlinesSIMD` against the scalar count -/

/-- C23. With `size = 40` on a buffer whose first 40 bytes hold one `'\n'` (at
offset 35) `countNewlinesSIMD` returns 0: after the 32-byte block its remainder
loop reads the offsets 64..71 of the mapping instead of 32..39; when the mapping
ends after the 40 bytes those reads are outside it.  With `size = 33` the byte at
offset 64 is read: the call is defined on a mapping of 65 bytes and not on one of
64 bytes. -/
theorem countNewlinesSIMD_remainder :
    buf72.length = 72 ∧ (buf72.take 40).count NL = 1 ∧
    countNewlinesSIMD buf72 0 40 = some 0 ∧
    simdBlocks buf72 1 0 0 = some (32, 0) ∧
    countNewlinesSIMD (buf72.take 40) 0 40 = none ∧
    countNewlinesSIMD (buf72.take 64) 0 33 = none ∧
    countNewlinesSIMD (buf72.take 65) 0 33 = some 0 := by
  decide

/-! ## The flag and the tip -/

/-- C24. For every line with at least 19 commas `Reader::parseLine` returns a
record whose `Store_and_fwd_flag` is the first byte of column 19, the column
`tip` is parsed from, when that column is not empty, and `'N'` otherwise; so,
`std::from_chars` converting no text that starts with `Y`, a parsed flag `'Y'`
comes with the tip `0.0`. -/
theorem flag_from_tip_column (D : Type) [DoubleOps D] (line : List Char)
    (h : 20 ≤ (columns line).length) :
    ∃ r, parseLine D line = .ok r ∧
      r.tip = parseDouble D (column line 19) ∧
      r.Store_and_fwd_flag = (match column line 19 with
        | [] => 'N'
        | c :: _ => c) ∧
      ((∀ sv : List Char, sv.head? = some 'Y' → (DoubleOps.from_chars sv : Option D) = none) →
        r.Store_and_fwd_flag = 'Y' → r.tip = DoubleOps.zero) := by
  refine ⟨_, parseLine_of_twenty D line h, rfl, rfl, ?_⟩
  intro hfc hflag
  show parseDouble D (column line 19) = DoubleOps.zero
  simp only [] at hflag
  cases hcol : column line 19 with
  | nil =>
    rw [hcol] at hflag
    have hN : 'N' = 'Y' := hflag
    exact absurd hN (by decide)
  | cons c cs =>
    rw [hcol] at hflag
    simp only [] at hflag
    subst hflag
    simp [parseDouble, hfc ('Y' :: cs) rfl]

theorem fixed_read_Y (sv : List Char) (h : sv.head? = some 'Y') :
    (DoubleOps.from_chars sv : Option Fixed) = none := by
  cases sv with
  | nil => cases h
  | cons c cs =>
    have hc : c = 'Y' := by simpa using h
    subst hc
    show Fixed.read ('Y' :: cs) = none
    simp [Fixed.read, List.takeWhile_cons, List.dropWhile_cons, show isDigit 'Y' = false by decide]

theorem flag_from_tip_column_witness :
    20 ≤ (columns tripNegativePassengers).length ∧ column tripNegativePassengers 19 = ['Y'] ∧
    ∃ r, parseLine Fixed tripNegativePassengers = .ok r ∧ r.Store_and_fwd_flag = 'Y' ∧
      r.tip = ⟨0⟩ := by
  obtain ⟨r, hr, _, hflag, hzero⟩ := flag_from_tip_column Fixed tripNegativePassengers (by decide)
  have hY : r.Store_and_fwd_flag = 'Y' := hflag.trans (by decide)
  exact ⟨by decide, by decide, r, hr, hY, hzero fixed_read_Y hY⟩

/-! ## The two January tests; the bounds of a range -/

/-- C26. For every record with its 11-byte date buffer the vectorised test
`isJanuary2024SIMD` of query3 and query4 returns what the scalar
`TripRecord::isInJanuary2024` returns, whatever bytes follow the loaded objects:
both decide on the first 7 bytes. -/
theorem isJanuary2024SIMD_eq_scalar (D : Type) (mem : SimdTail) (record : TripRecord D)
    (h : record.date.length = 11) :
    isJanuary2024SIMD mem record.date = record.isInJanuary2024 ∧
    (isJanuary2024SIMD mem record.date = true ↔ record.date.take 7 = "2024-01".toList) := by
  have h1 := isJanuary2024SIMD_iff mem record.date (by omega)
  have h2 : record.isInJanuary2024 = true ↔ record.date.take 7 = "2024-01".toList := by
    unfold TripRecord.isInJanuary2024
    rw [decide_eq_true_eq]
    exact strncmp_january_iff record.date (by omega)
  refine ⟨?_, h1⟩
  rw [Bool.eq_iff_iff, h1, h2]

theorem isJanuary2024SIMD_eq_scalar_witness :
    tripSixMiles.date.length = 11 ∧
    isJanuary2024SIMD ⟨"xyz".toList, "2024-01".toList⟩ tripSixMiles.date = true ∧
    tripSixMiles.isInJanuary2024 = true ∧
    isJanuary2024SIMD ⟨"xyz".toList, "2024-01".toList⟩ tripFebruary.date = tripFebruary.isInJanuary2024 :=
  ⟨by decide,
    ((isJanuary2024SIMD_eq_scalar Fixed ⟨"xyz".toList, "2024-01".toList⟩ tripSixMiles
      (by decide)).2).2 (by decide),
    by decide,
    (isJanuary2024SIMD_eq_scalar Fixed ⟨"xyz".toList, "2024-01".toList⟩ tripFebruary
      (by decide)).1⟩

/-- C27. For every buffer, every `W >= 1` and every worker `i < W` the adjusted
bounds satisfy `start_i <= end_i <= N`: the `size_t` difference `end_i - start_i`
does not wrap around. -/
theorem aligned_start_le_end (data : List Char) (numThreads i : Nat) (_hW : 1 ≤ numThreads)
    (hi : i < numThreads) :
    alignedStart data numThreads i ≤ alignedEnd data numThreads i ∧
    alignedEnd data numThreads i ≤ data.length ∧
    alignedStart data numThreads i +
      (alignedEnd data numThreads i - alignedStart data numThreads i) =
        alignedEnd data numThreads i := by
  obtain ⟨_, h2, h3, h4⟩ := aligned_bounds data numThreads i hi
  omega

theorem aligned_start_le_end_witness :
    (1 ≤ 3 ∧ 1 < 3) ∧
    alignedStart oneLongLine 3 1 ≤ alignedEnd oneLongLine 3 1 ∧
    alignedEnd oneLongLine 3 1 ≤ oneLongLine.length ∧
    (alignedStart oneLongLine 3 1, alignedEnd oneLongLine 3 1) = (6, 8) :=
  ⟨by decide, (aligned_start_le_end oneLongLine 3 1 (by decide) (by decide)).1,
    (aligned_start_le_end oneLongLine 3 1 (by decide) (by decide)).2.1, by decide⟩

/-! ## The cursors of `parseLine` -/

theorem nextField_suffix {l t : List Char} (h : nextField l = some t) : t <:+ l := by
  unfold nextField at h
  have hsuf := List.dropWhile_suffix (l := l) (fun c => decide (c ≠ COMMA))
  split at h
  · cases h
  · rename_i c tail heq
    cases h
    rw [heq] at hsuf
    exact (List.suffix_cons c t).trans hsuf

theorem nthCursor_suffix (k : Nat) : ∀ {l t : List Char}, nthCursor k l = some t → t <:+ l := by
  induction k with
  | zero => intro l t h; cases h; exact List.suffix_refl _
  | succ k ih =>
    intro l t h
    simp only [nthCursor] at h
    cases hn : nextField l with
    | none => rw [hn] at h; cases h
    | some u =>
      rw [hn] at h
      exact (ih h).trans (nextField_suffix hn)

theorem strncpyReads_le (n : Nat) : ∀ s : List Char,
    strncpyReads n s ≤ s.length + 1 ∧ strncpyReads n s ≤ n := by
  induction n with
  | zero => intro s; simp [strncpyReads]
  | succ n ih =>
    intro s
    cases s with
    | nil => simp [strncpyReads]
    | cons c cs =>
      simp only [strncpyReads]
      split
      · simp
      · have := ih cs
        simp only [List.length_cons]
        omega

/-- C25. For every line with at least 19 commas: `Reader::parseLine` returns;
each of the 20 cursor positions it computes lies in `[start, end]`; the
`strncpy` of the date, taken from the cursor after 10 steps, reads at most the
bytes from that cursor to `end` and the terminating NUL (and at most 10 bytes);
and the date buffer of the record has 11 bytes, the one at index 10 a NUL. -/
theorem parseLine_stays_in_line (D : Type) [DoubleOps D] (line : List Char)
    (h : 20 ≤ (columns line).length) :
    (∃ r, parseLine D line = .ok r ∧ r.date.length = 11 ∧ r.date[10]? = some NUL) ∧
    (∀ o ∈ cursorOffsets line, ∃ p, o = some p ∧ p ≤ line.length) ∧
    (∀ k, k ≤ 19 → ∃ t, nthCursor k line = some t ∧ t.length ≤ line.length ∧
      line.drop (line.length - t.length) = t) ∧
    (∃ t, nthCursor 10 line = some t ∧
      (∀ r, parseLine D line = .ok r → r.date = strncpy 10 t ++ [NUL]) ∧
      strncpyReads 10 t ≤ t.length + 1 ∧ strncpyReads 10 t ≤ 10) := by
  have c0 : columns line = (columns line).drop 0 := by simp
  have hcur : ∀ k, k ≤ 19 → ∃ t, nthCursor k line = some t ∧ t.length ≤ line.length ∧
      line.drop (line.length - t.length) = t ∧ columns t = (columns line).drop k := by
    intro k hk
    obtain ⟨t, ht, hc⟩ := nthCursor_of_length k c0 (by omega)
    have hsuf := nthCursor_suffix k ht
    refine ⟨t, ht, hsuf.length_le, (List.suffix_iff_eq_drop.1 hsuf).symm, ?_⟩
    simpa using hc
  have hr := parseLine_of_twenty D line h
  refine ⟨⟨_, hr, ?_, ?_⟩, ?_, ?_, ?_⟩
  · simp [strncpy_length]
  · rw [List.getElem?_append_right (by rw [strncpy_length])]
    simp [strncpy_length]
  · intro o ho
    unfold cursorOffsets at ho
    obtain ⟨k, hk, rfl⟩ := List.mem_map.1 ho
    obtain ⟨t, ht, hlen, _, _⟩ := hcur k (by have := List.mem_range.1 hk; omega)
    exact ⟨line.length - t.length, by rw [ht]; rfl, by omega⟩
  · intro k hk
    obtain ⟨t, ht, hlen, hdrop, _⟩ := hcur k hk
    exact ⟨t, ht, hlen, hdrop⟩
  · obtain ⟨t, ht, _, _, hc⟩ := hcur 10 (by omega)
    refine ⟨t, ht, ?_, (strncpyReads_le 10 t).1, (strncpyReads_le 10 t).2⟩
    intro r hr2
    rw [hr] at hr2
    cases hr2
    show strncpy 10 (fromColumn line 10) ++ [NUL] = _
    rw [← fromColumn_of_drop hc]

theorem parseLine_stays_in_line_witness :
    20 ≤ (columns tripNegativePassengers).length ∧
    cursorOffsets tripNegativePassengers =
      [some 0, some 2, some 3, some 4, some 5, some 6, some 7, some 10, some 11, some 12,
        some 13, some 24, some 25, some 26, some 27, some 28, some 29, some 31, some 32,
        some 33] ∧
    tripNegativePassengers.length = 34 ∧
    (∃ r, parseLine Fixed tripNegativePassengers = .ok r ∧ r.date.length = 11 ∧
      r.date[10]? = some NUL) :=
  ⟨by decide, by decide, by decide,
    (parseLine_stays_in_line Fixed tripNegativePassengers (by decide)).1⟩

/-! ## The empty buffer -/

theorem mapM_some_eq {α β : Type} (f : α → Option β) (g : α → β) (l : List α)
    (h : ∀ a ∈ l, f a = some (g a)) : l.mapM f = some (l.map g) := by
  induction l with
  | nil => rfl
  | cons a as ih =>
    rw [List.mapM_cons, h a (List.mem_cons_self _ _),
      ih (fun x hx => h x (List.mem_cons_of_mem _ hx))]
    rfl

theorem aligned_nil (numThreads i : Nat) :
    alignedStart [] numThreads i = 0 ∧ alignedEnd [] numThreads i = 0 := by
  simp [alignedStart, alignedEnd, nominalStart, nominalEnd, chunkSize, skipToNewline]

theorem chunkBytes_nil (numThreads i : Nat) : chunkBytes [] numThreads i = [] := by
  simp [chunkBytes]

theorem foldChunk_nil (D : Type) [DoubleOps D] {Acc : Type} (step : Acc → TripRecord D → Acc)
    (init : Acc) : foldChunk D step init [] = some init := rfl

theorem foldl_add_zero (l : List Nat) (h : ∀ n ∈ l, n = 0) :
    l.foldl (fun total count => total + count) 0 = 0 := by
  induction l with
  | nil => rfl
  | cons a as ih =>
    rw [List.foldl_cons, h a (List.mem_cons_self _ _)]
    exact ih (fun n hn => h n (List.mem_cons_of_mem _ hn))

theorem query1_nil (numThreads : Nat) : query1 [] numThreads = some 0 := by
  unfold query1
  rw [mapM_some_eq _ (fun _ => 0) _ (fun i _ => by
    rw [(aligned_nil numThreads i).1, (aligned_nil numThreads i).2]; rfl)]
  simp only [List.length_nil, Nat.lt_irrefl, false_and, if_false]
  rw [foldl_add_zero _ (fun n hn => by
    obtain ⟨_, _, rfl⟩ := List.mem_map.1 hn; rfl)]

theorem mem_modifyAt {α : Type} (f : α → α) :
    ∀ (i : Nat) (l : List α) (x : α), x ∈ modifyAt f i l → x ∈ l ∨ ∃ y ∈ l, x = f y := by
  intro i l
  induction l generalizing i with
  | nil => intro x hx; simp [modifyAt] at hx
  | cons a as ih =>
    intro x hx
    cases i with
    | zero =>
      simp only [modifyAt] at hx
      rcases List.mem_cons.1 hx with h | h
      · exact Or.inr ⟨a, List.mem_cons_self _ _, h⟩
      · exact Or.inl (List.mem_cons_of_mem _ h)
    | succ i =>
      simp only [modifyAt] at hx
      rcases List.mem_cons.1 hx with h | h
      · exact Or.inl (h ▸ List.mem_cons_self _ _)
      · rcases ih i x h with h2 | ⟨y, hy, hxy⟩
        · exact Or.inl (List.mem_cons_of_mem _ h2)
        · exact Or.inr ⟨y, List.mem_cons_of_mem _ hy, hxy⟩

/-- A property of every entry of a vector survives a loop of in-place updates
that keep it. -/
theorem foldl_modifyAt_forall {α : Type} (P : α → Prop) (F : Nat → α → α)
    (hF : ∀ i a, P a → P (F i a)) (is : List Nat) :
    ∀ l : List α, (∀ x ∈ l, P x) →
      ∀ x ∈ is.foldl (fun final i => modifyAt (F i) i final) l, P x := by
  induction is with
  | nil => intro l hl; exact hl
  | cons i rest ih =>
    intro l hl
    rw [List.foldl_cons]
    apply ih
    intro x hx
    rcases mem_modifyAt (F i) i l x hx with h | ⟨y, hy, rfl⟩
    · exact hl x h
    · exact hF i y (hl y hy)

theorem getD_forall {α : Type} (P : α → Prop) (l : List α) (i : Nat) (d : α)
    (hl : ∀ x ∈ l, P x) (hd : P d) : P (l.getD i d) := by
  rw [List.getD_eq_getElem?_getD]
  cases h : l[i]? with
  | none => exact hd
  | some x => exact hl x (List.mem_iff_getElem?.2 ⟨i, h⟩)

theorem query2Merge_counts_zero {D : Type} [DoubleOps D] (threadStats : List (List (PaymentStats D)))
    (h : ∀ ts ∈ threadStats, ∀ s ∈ ts, s.count = 0) :
    ∀ s ∈ query2Merge threadStats, s.count = 0 := by
  unfold query2Merge
  have hgen : ∀ (final : List (PaymentStats D)), (∀ s ∈ final, s.count = 0) →
      ∀ s ∈ threadStats.foldl query2MergeOne final, s.count = 0 := by
    induction threadStats with
    | nil => intro final hf; exact hf
    | cons ts rest ih =>
      intro final hf
      rw [List.foldl_cons]
      apply ih (fun t ht => h t (List.mem_cons_of_mem _ ht))
      unfold query2MergeOne
      apply foldl_modifyAt_forall (fun s => s.count = 0) _ _ _ final hf
      intro i a ha
      have hts : (ts.getD i (PaymentStats.zero D)).count = 0 :=
        getD_forall (fun s => s.count = 0) ts i _ (h ts (List.mem_cons_self _ _)) rfl
      simp only [lane0_set1, ha, hts]
      rfl
  apply hgen
  intro s hs
  rw [List.eq_of_mem_replicate hs]
  rfl

theorem query2Report_nil_of_counts_zero {D : Type} [DoubleOps D] (finalStats : List (PaymentStats D))
    (h : ∀ s ∈ finalStats, s.count = 0) : query2Report finalStats = [] := by
  unfold query2Report
  rw [List.filterMap_eq_nil_iff]
  intro i _
  have hc : (finalStats.getD i (PaymentStats.zero D)).count = 0 :=
    getD_forall (fun s => s.count = 0) finalStats i _ h rfl
  simp only [hc, Nat.lt_irrefl, gt_iff_lt, if_false]

theorem query3Merge_counts_zero (threadStats : List (List VendorStats))
    (h : ∀ ts ∈ threadStats, ∀ s ∈ ts, s.count = 0) :
    ∀ s ∈ query3Merge threadStats, s.count = 0 := by
  unfold query3Merge
  have hgen : ∀ (final : List VendorStats), (∀ s ∈ final, s.count = 0) →
      ∀ s ∈ threadStats.foldl query3MergeOne final, s.count = 0 := by
    induction threadStats with
    | nil => intro final hf; exact hf
    | cons ts rest ih =>
      intro final hf
      rw [List.foldl_cons]
      apply ih (fun t ht => h t (List.mem_cons_of_mem _ ht))
      unfold query3MergeOne
      apply foldl_modifyAt_forall (fun s => s.count = 0) _ _ _ final hf
      intro i a ha
      have hts : (ts.getD i VendorStats.zero).count = 0 :=
        getD_forall (fun s => s.count = 0) ts i _ (h ts (List.mem_cons_self _ _)) rfl
      simp only [ha, hts]
      rfl
  apply hgen
  intro s hs
  rw [List.eq_of_mem_replicate hs]
  rfl

theorem query3Report_nil_of_counts_zero (finalStats : List VendorStats)
    (h : ∀ s ∈ finalStats, s.count = 0) : query3Report finalStats = [] := by
  unfold query3Report
  rw [List.filterMap_eq_nil_iff]
  intro i _
  have hc : (finalStats.getD i VendorStats.zero).count = 0 :=
    getD_forall (fun s => s.count = 0) finalStats i _ h rfl
  simp only [hc, Nat.lt_irrefl, gt_iff_lt, if_false]

theorem query4Merge_of_empty {D : Type} [DoubleOps D] (threadStats : List (DateMap D))
    (h : ∀ w ∈ threadStats, w = []) : query4Merge threadStats = [] := by
  unfold query4Merge
  induction threadStats with
  | nil => rfl
  | cons w rest ih =>
    rw [List.foldl_cons, h w (List.mem_cons_self _ _)]
    exact ih (fun x hx => h x (List.mem_cons_of_mem _ hx))

/-- C22. For the empty buffer and every worker count `W >= 1`: the total of
query1 is 0, and query2, query3 and query4 report no key. -/
theorem empty_buffer (D : Type) [DoubleOps D] (mem : SimdTail) (numThreads : Nat)
    (_hW : 1 ≤ numThreads) :
    query1 [] numThreads = some 0 ∧
    (query2 D [] numThreads).map query2Report = some [] ∧
    (query3 D mem [] numThreads).map query3Report = some [] ∧
    query4 D mem [] numThreads = some [] := by
  refine ⟨query1_nil numThreads, ?_, ?_, ?_⟩
  · unfold query2
    rw [mapM_some_eq _ (fun _ => List.replicate 7 (PaymentStats.zero D)) _ (fun i _ => by
      rw [chunkBytes_nil, foldChunk_nil])]
    simp only [Option.map_some']
    rw [query2Report_nil_of_counts_zero]
    apply query2Merge_counts_zero
    intro ts hts s hs
    obtain ⟨_, _, rfl⟩ := List.mem_map.1 hts
    rw [List.eq_of_mem_replicate hs]
    rfl
  · unfold query3
    rw [mapM_some_eq _ (fun _ => List.replicate MAX_VENDOR_ID VendorStats.zero) _ (fun i _ => by
      rw [chunkBytes_nil, foldChunk_nil])]
    simp only [Option.map_some']
    rw [query3Report_nil_of_counts_zero]
    apply query3Merge_counts_zero
    intro ts hts s hs
    obtain ⟨_, _, rfl⟩ := List.mem_map.1 hts
    rw [List.eq_of_mem_replicate hs]
    rfl
  · unfold query4
    rw [mapM_some_eq _ (fun _ => ([] : DateMap D)) _ (fun i _ => by
      rw [chunkBytes_nil, foldChunk_nil])]
    simp only [Option.map_some']
    rw [query4Merge_of_empty]
    intro w hw
    obtain ⟨_, _, rfl⟩ := List.mem_map.1 hw
    rfl

theorem empty_buffer_witness :
    (1 ≤ 8) ∧ query1 [] 8 = some 0 ∧
    (query2 Fixed [] 8).map query2Report = some [] ∧
    (query3 Fixed ⟨[], []⟩ [] 8).map query3Report = some [] ∧
    query4 Fixed ⟨[], []⟩ [] 8 = some [] ∧
    query1 [] 1 = some 0 :=
  ⟨by decide, (empty_buffer Fixed ⟨[], []⟩ 8 (by decide)).1,
    (empty_buffer Fixed ⟨[], []⟩ 8 (by decide)).2.1,
    (empty_buffer Fixed ⟨[], []⟩ 8 (by decide)).2.2.1,
    (empty_buffer Fixed ⟨[], []⟩ 8 (by decide)).2.2.2,
    (empty_buffer Fixed ⟨[], []⟩ 1 (by decide)).1⟩

end QueryEngine
